import Mathlib

/-!
# A verification development for `pop.go`

`pop.go` is a small map/reduce pipeline: three workers each read a fixed list
of CSV files of `city,state,population` rows and keep the rows whose population
reaches a threshold (`Map`), the main goroutine concatenates the three partial
lists as they arrive, and `reduce` groups the combined list by state, ranks the
states by how many records they have and renders a text report.

The embedding below is shallow.  Each Go function becomes a Lean function of the
same name.  What the Go code takes from its environment is made an explicit
argument:

* the file system together with `os.Open` and `csv.Reader.ReadAll`: a function
  from a path to what opening and reading that path yields (`FileSystem`);
* the order in which `for k := range m` visits the keys of a map, and where
  `sort.Slice` places the elements it is given: the two fields of `GoRuntime`,
  constrained only by what the Go language and library documentation promise;
* the order in which the three partial lists are received on the channel: a
  list of workers.

A run-time panic (an index out of range) is an outcome of its own.
-/

set_option linter.dupNamespace false

namespace PopGo

/-! ## Data model -/

/-- The Go struct `Population` (`pop.go`, lines 12-16).  The field `Population`
is a Go `int`; only comparisons are performed on it, so it is an integer here. -/
structure Population where
  State : String
  City : String
  Population : Int
  deriving DecidableEq, Repr

/-- The Go struct `Worker` (`pop.go`, lines 18-20). -/
structure Worker where
  Files : List String
  deriving DecidableEq, Repr

/-- A Go `error` value, reduced to where it came from. -/
inductive GoError where
  /-- The error of `os.Open`. -/
  | openFailed (path : String)
  /-- The error of `csv.Reader.ReadAll`. -/
  | csvFailed (path : String)
  /-- The error of `strconv.Atoi` on the given text. -/
  | atoiFailed (text : String)
  deriving DecidableEq, Repr

/-- What a Go function with result type `(T, error)` can do: return a value with
a nil error, return a non-nil error, or panic at run time. -/
inductive Outcome (α : Type) where
  | ok (val : α)
  | error (err : GoError)
  | panic
  deriving DecidableEq, Repr

/-- What `os.Open` followed by `csv.NewReader(file).ReadAll()` yields for one
path: the open fails, the CSV reader fails, or the reader returns the rows, each
row being its list of fields. -/
inductive FileState where
  | openError
  | readAllError
  | records (rows : List (List String))
  deriving DecidableEq, Repr

/-- The environment of `readCSV`: the state of every path. -/
abbrev FileSystem := String → FileState

/-! ## `strconv.Atoi` -/

/-- The largest Go `int` on a 64-bit platform. -/
def maxInt : Int := 9223372036854775807

/-- The smallest Go `int` on a 64-bit platform. -/
def minInt : Int := -9223372036854775808

/-- The value of a string of decimal digits, most significant first. -/
def digitsValue (ds : List Char) : Nat :=
  ds.foldl (fun n ch => n * 10 + (ch.toNat - 48)) 0

/-- Model of the library function `strconv.Atoi` (base 10, 64-bit `int`): an
optional sign `+` or `-`, then at least one decimal digit and nothing else; the
value must fit a Go `int`.  Anything else is an error (`none`). -/
def Atoi (s : String) : Option Int :=
  match s.data with
  | [] => none
  | c :: rest =>
    let ds := if c = '-' ∨ c = '+' then rest else c :: rest
    if ds = [] then none
    else if ds.all Char.isDigit then
      let n : Int := if c = '-' then -(digitsValue ds : Int) else (digitsValue ds : Int)
      if minInt ≤ n ∧ n ≤ maxInt then some n else none
    else none

/-! ## `readCSV` and `Map` -/

/-- The loop of `readCSV` (`pop.go`, lines 133-145) over the rows still to be
visited, with the slice `populations` built so far.  `record[0]`, `record[1]`
and `record[2]` are index expressions on a slice: on a row with fewer than three
fields the first missing one panics. -/
def readCSV.loop : List (List String) → List Population → Outcome (List Population)
  | [], populations => .ok populations
  | record :: records, populations =>
    match record with
    | city :: state :: field2 :: _ =>
      match Atoi field2 with
      | none => .error (.atoiFailed field2)
      | some population =>
        readCSV.loop records
          (populations ++ [{ State := state, City := city, Population := population }])
    | _ => .panic

/-- The function `readCSV` (`pop.go`, lines 118-147). -/
def readCSV (fs : FileSystem) (filePath : String) : Outcome (List Population) :=
  match fs filePath with
  | .openError => .error (.openFailed filePath)
  | .readAllError => .error (.csvFailed filePath)
  | .records records => readCSV.loop records []

/-- The inner loop of `Map` (`pop.go`, lines 107-111): append to `populations`
every record of `filePopulations` whose population is at least `min_pop`. -/
def Map.keep (min_pop : Int) (filePopulations populations : List Population) :
    List Population :=
  filePopulations.foldl
    (fun populations pop => if pop.Population ≥ min_pop then populations ++ [pop] else populations)
    populations

/-- The outer loop of `Map` (`pop.go`, lines 96-112) over the files still to be
visited.  An error of `readCSV` is printed and the file skipped (`continue`); a
panic inside `readCSV` unwinds through `Map` (`none`).  The line written to
standard output is not part of the returned value and is not modelled. -/
def Map.loop (fs : FileSystem) (dir : String) (min_pop : Int) :
    List String → List Population → Option (List Population)
  | [], populations => some populations
  | file :: files, populations =>
    match readCSV fs (dir ++ "/" ++ file) with
    | .error _ => Map.loop fs dir min_pop files populations
    | .panic => none
    | .ok filePopulations =>
      Map.loop fs dir min_pop files (Map.keep min_pop filePopulations populations)

/-- The function `Map` (`pop.go`, lines 94-115): `some l` when it returns the
slice `l`, `none` when it panics. -/
def Map (fs : FileSystem) (worker : Worker) (dir : String) (min_pop : Int) :
    Option (List Population) :=
  Map.loop fs dir min_pop worker.Files []

/-! ## The fan-in of `main` -/

/-- The worker `worker0` of `main` (`pop.go`, line 44). -/
def worker0 : Worker := { Files := ["cities1.csv", "cities2.csv", "cities3.csv"] }

/-- The worker `worker1` of `main` (`pop.go`, line 45). -/
def worker1 : Worker := { Files := ["cities4.csv", "cities5.csv", "cities6.csv"] }

/-- The worker `worker2` of `main` (`pop.go`, line 46). -/
def worker2 : Worker :=
  { Files := ["cities7.csv", "cities8.csv", "cities9.csv", "cities10.csv"] }

/-- The three workers `main` starts, in the order of their `go` statements. -/
def workers : List Worker := [worker0, worker1, worker2]

/-- The ten input files, in the order of the assignment to the workers. -/
def allFiles : List String := workers.flatMap Worker.Files

/-- The collection loop of `main` (`pop.go`, lines 64-71): `allPopulations`
starts nil and every list received on `results` is appended to it. -/
def collect (received : List (List Population)) : List Population :=
  received.foldl (fun allPopulations populationList => allPopulations ++ populationList) []

/-- The combined list `main` hands to `reduce` (`pop.go`, lines 49-71) when the
results of the workers of `order` are received, in that order: every one of them
sends its `Map` result on the channel and the loop collects them.  When the
`Map` call of one of them panics, that worker sends nothing and there is no such
list (`none`). -/
def mainCombined (fs : FileSystem) (dir : String) (min_pop : Int) (order : List Worker) :
    Option (List Population) :=
  (order.mapM (fun worker => Map fs worker dir min_pop)).map collect

/-! ## Go maps, map iteration and `sort.Slice` -/

/-- A Go `map[string]V`: its entries, one per key, in the order the keys were
first inserted. -/
abbrev GoMap (V : Type) := List (String × V)

/-- The Go expression `m[k]`: the value stored under `k`, or the zero value of
the value type when `k` is not a key. -/
def GoMap.get {V : Type} (zero : V) : GoMap V → String → V
  | [], _ => zero
  | (k, v) :: m, key => if k = key then v else GoMap.get zero m key

/-- The Go statement `m[k] = v`: replace the value under `k`, or add the entry. -/
def GoMap.set {V : Type} : GoMap V → String → V → GoMap V
  | [], key, val => [(key, val)]
  | (k, v) :: m, key, val => if k = key then (k, val) :: m else (k, v) :: GoMap.set m key val

/-- The keys of a Go map, in insertion order. -/
def GoMap.keys {V : Type} (m : GoMap V) : List String := m.map Prod.fst

/-- A comparison function is acceptable to `sort.Slice` when it is a strict weak
ordering: nothing is less than something that is less than it, and "not less" is
transitive. -/
def StrictWeak (less : String → String → Bool) : Prop :=
  (∀ a b, less a b = true → less b a = false) ∧
  (∀ a b c, less a b = false → less b c = false → less a c = false)

/-- What the program takes from the Go run time.  `rangeOrder ks` is the order in
which a `for k := range m` loop visits the keys `ks` of a map: the language
leaves it unspecified, every key is visited once.  `sortSlice less xs` is the
content of the slice `xs` after `sort.Slice(xs, less)`: the same elements, and
for a strict weak ordering no element is less than one placed before it; the
sort is not stable, so elements that compare equal may end in any order. -/
structure GoRuntime where
  rangeOrder : List String → List String
  rangeOrder_perm : ∀ ks, (rangeOrder ks).Perm ks
  sortSlice : (String → String → Bool) → List String → List String
  sortSlice_perm : ∀ less xs, (sortSlice less xs).Perm xs
  sortSlice_sorted : ∀ less xs, StrictWeak less →
    (sortSlice less xs).Pairwise (fun a b => less b a = false)

/-! ## `reduce` -/

/-- The function `countStateFrequency` (`pop.go`, lines 183-189).  A count is a
Go `int` that starts at zero and is incremented once per record, so it never
exceeds the length of the slice; it is a natural number here. -/
def countStateFrequency (pop_list : List Population) : GoMap Nat :=
  pop_list.foldl
    (fun stateCount pop => stateCount.set pop.State (stateCount.get 0 pop.State + 1)) []

/-- The function `sortStatesByFrequency` (`pop.go`, lines 192-201): the keys of
`stateCount` are appended to `states` in map iteration order, then sorted with
`stateCount[states[i]] > stateCount[states[j]]` as the comparison. -/
def sortStatesByFrequency (rt : GoRuntime) (stateCount : GoMap Nat) : List String :=
  let states := (rt.rangeOrder stateCount.keys).foldl (fun states state => states ++ [state]) []
  rt.sortSlice (fun a b => decide (stateCount.get 0 a > stateCount.get 0 b)) states

/-- The map `stateMap` that `reduce` builds (`pop.go`, lines 163-168). -/
def reduce.stateMap (pop_list : List Population) : GoMap (List Population) :=
  pop_list.foldl
    (fun stateMap pop => stateMap.set pop.State (stateMap.get [] pop.State ++ [pop])) []

/-- The Go call `fmt.Sprintf("%s: %d\n", state, stateFrequency)`. -/
def headerLine (state : String) (stateFrequency : Nat) : String :=
  state ++ ": " ++ toString stateFrequency ++ "\n"

/-- The Go call `fmt.Sprintf("- %s, %d\n", city.City, city.Population)`. -/
def cityLine (city : Population) : String :=
  "- " ++ city.City ++ ", " ++ toString city.Population ++ "\n"

/-- The function `reduce` (`pop.go`, lines 155-180). -/
def reduce (rt : GoRuntime) (pop_list : List Population) : String :=
  let output := ""
  let stateCount := countStateFrequency pop_list
  let sortedStates := sortStatesByFrequency rt stateCount
  let stateMap := reduce.stateMap pop_list
  sortedStates.foldl
    (fun output state =>
      let stateFrequency := stateCount.get 0 state
      let output := output ++ headerLine state stateFrequency
      (stateMap.get [] state).foldl (fun output city => output ++ cityLine city) output)
    output

/-! ## The goroutines of `main`

The executions of `main` from the point where the three worker goroutines and
the closing goroutine have been started (`pop.go`, lines 49-68) are the runs of
a transition system.  A step is one event of one goroutine; a schedule is the
list of events in the order they happen.  The channel `results` is unbuffered,
so a send and the matching receive are one event.

A worker goroutine is `defer wg.Done()` followed by `results <- Map(...)`.  When
its call of `Map` panics, the send never happens, and the deferred `wg.Done()`
runs while the panic unwinds; only after that does the run time terminate the
program, and until it does the other goroutines go on. -/

/-- The three worker goroutines. -/
inductive WorkerId where
  | w0
  | w1
  | w2
  deriving DecidableEq, Repr

/-- The worker value a worker goroutine passes to `Map`. -/
def WorkerId.worker : WorkerId → Worker
  | .w0 => worker0
  | .w1 => worker1
  | .w2 => worker2

/-- Whether the call of `Map` in a worker goroutine panics. -/
def mapPanicsOf (fs : FileSystem) (dir : String) (min_pop : Int) (i : WorkerId) : Bool :=
  (Map fs i.worker dir min_pop).isNone

/-- Where a worker goroutine stands (`pop.go`, lines 50-53): `running` until its
send `results <- Map(...)` has completed or a panic has been raised, `sent`
between the send and the deferred `wg.Done()`, `done` after that `wg.Done()`;
`unwinding` between a panic and the deferred `wg.Done()`, `aborted` after that
`wg.Done()`: the goroutine has signalled completion and has sent nothing. -/
inductive WorkerPhase where
  | running
  | sent
  | done
  | unwinding
  | aborted
  deriving DecidableEq, Repr

/-- Where the closing goroutine stands (`pop.go`, lines 65-68): blocked in
`wg.Wait()`, returned from it, or past `close(results)`. -/
inductive CloserPhase where
  | waiting
  | woken
  | closed
  deriving DecidableEq, Repr

/-- Where the main goroutine stands: in the loop `for populationList := range
results` (lines 69-71), past the loop, or past the call of `reduce` (line 80). -/
inductive MainPhase where
  | collecting
  | collected
  | reduced
  deriving DecidableEq, Repr

/-- The state of an execution of `main`: the phase of every goroutine, the
counter of the wait group `wg`, the workers whose lists have been appended to
`allPopulations`, in receive order, and whether the run time has terminated the
program after a panic. -/
structure MainState where
  phase0 : WorkerPhase
  phase1 : WorkerPhase
  phase2 : WorkerPhase
  counter : Nat
  closer : CloserPhase
  received : List WorkerId
  main : MainPhase
  crashed : Bool
  deriving DecidableEq, Repr

/-- The phase of one worker. -/
def MainState.phase (s : MainState) : WorkerId → WorkerPhase
  | .w0 => s.phase0
  | .w1 => s.phase1
  | .w2 => s.phase2

/-- Move one worker to a phase. -/
def MainState.setPhase (s : MainState) (i : WorkerId) (p : WorkerPhase) : MainState :=
  match i with
  | .w0 => { s with phase0 := p }
  | .w1 => { s with phase1 := p }
  | .w2 => { s with phase2 := p }

/-- The state after `wg.Add(3)` and the `go` statements: three workers running,
the counter at three, the closing goroutine waiting, nothing received. -/
def MainState.initial : MainState :=
  { phase0 := .running, phase1 := .running, phase2 := .running, counter := 3,
    closer := .waiting, received := [], main := .collecting, crashed := false }

/-- The events of an execution. -/
inductive Event where
  /-- Worker `i` sends its `Map` result and the loop of `main` receives and
  appends it (lines 52 and 69-70). -/
  | send (i : WorkerId)
  /-- The call of `Map` in worker `i` panics (line 52); the panic starts to
  unwind the goroutine. -/
  | mapPanics (i : WorkerId)
  /-- The deferred `wg.Done()` of worker `i` runs (line 51), on its normal return
  or while its panic unwinds. -/
  | workerDone (i : WorkerId)
  /-- The run time terminates the program: the panic of a worker has run the
  deferred call and was not recovered. -/
  | programExits
  /-- The call `wg.Wait()` returns (line 66). -/
  | waitReturns
  /-- The call `close(results)` is made (line 67). -/
  | closeResults
  /-- The loop over `results` ends, the channel being closed (line 69). -/
  | rangeEnds
  /-- The function `reduce` is called on `allPopulations` (line 80). -/
  | callReduce
  deriving DecidableEq, Repr

/-- One step of an execution in which `panics i` tells whether the call of `Map`
in worker `i` panics: the state after the event, or `none` when the event cannot
happen in the state.  A send needs a `Map` call that returned and the receiver
in its loop, and a send on a closed channel panics; the deferred `wg.Done()` of
a worker runs after its send or after its panic; the program is terminated only
after the deferred call of a panicking worker has run; `wg.Wait()` returns only
when the counter is zero; the loop ends only when the channel is closed; nothing
happens once the program is terminated. -/
def step (panics : WorkerId → Bool) (s : MainState) : Event → Option MainState
  | .send i =>
    if s.crashed = false ∧ panics i = false ∧ s.phase i = .running ∧ s.main = .collecting then
      if s.closer = .closed then some (s.setPhase i .unwinding)
      else some { s.setPhase i .sent with received := s.received ++ [i] }
    else none
  | .mapPanics i =>
    if s.crashed = false ∧ panics i = true ∧ s.phase i = .running then
      some (s.setPhase i .unwinding)
    else none
  | .workerDone i =>
    if s.crashed = false ∧ s.phase i = .sent then
      some { s.setPhase i .done with counter := s.counter - 1 }
    else if s.crashed = false ∧ s.phase i = .unwinding then
      some { s.setPhase i .aborted with counter := s.counter - 1 }
    else none
  | .programExits =>
    if s.crashed = false ∧
        (s.phase0 = .aborted ∨ s.phase1 = .aborted ∨ s.phase2 = .aborted) then
      some { s with crashed := true }
    else none
  | .waitReturns =>
    if s.crashed = false ∧ s.closer = .waiting ∧ s.counter = 0 then
      some { s with closer := .woken }
    else none
  | .closeResults =>
    if s.crashed = false ∧ s.closer = .woken then some { s with closer := .closed }
    else none
  | .rangeEnds =>
    if s.crashed = false ∧ s.main = .collecting ∧ s.closer = .closed then
      some { s with main := .collected }
    else none
  | .callReduce =>
    if s.crashed = false ∧ s.main = .collected then some { s with main := .reduced }
    else none

/-- The state after a schedule, when every event of it can happen in turn. -/
def run (panics : WorkerId → Bool) : MainState → List Event → Option MainState
  | s, [] => some s
  | s, e :: schedule =>
    match step panics s e with
    | none => none
    | some next => run panics next schedule

/-- The list in `allPopulations` in a state of an execution: the `Map` results
of the workers received so far, collected in receive order.  It is what `reduce`
is called on when the state is past the loop. -/
def handedToReduce (fs : FileSystem) (dir : String) (min_pop : Int) (s : MainState) :
    Option (List Population) :=
  mainCombined fs dir min_pop (s.received.map WorkerId.worker)

/-- One when the worker has not yet run its deferred `wg.Done()`, zero when it
has. -/
def pending : WorkerPhase → Nat
  | .done => 0
  | .aborted => 0
  | _ => 1

/-- The invariant of the executions of `main`: the counter of `wg` is the number
of workers that have not yet run `wg.Done()`; `wg.Wait()` has returned only if
the counter is zero; the loop has ended only if the channel is closed; the
received workers are those whose send has completed, each once; and a worker
unwinds a panic only if its call of `Map` panics. -/
def MainState.Invariant (panics : WorkerId → Bool) (s : MainState) : Prop :=
  s.counter = pending s.phase0 + pending s.phase1 + pending s.phase2 ∧
  (s.closer ≠ .waiting → s.counter = 0) ∧
  (s.main ≠ .collecting → s.closer = .closed) ∧
  (∀ i, i ∈ s.received ↔ (s.phase i = .sent ∨ s.phase i = .done)) ∧
  s.received.Nodup ∧
  (∀ i, (s.phase i = .unwinding ∨ s.phase i = .aborted) → panics i = true)

/-- The state at the end of `exampleSchedule`. -/
def exampleFinal : MainState :=
  { phase0 := .done, phase1 := .done, phase2 := .done, counter := 0,
    closer := .closed, received := [.w1, .w0, .w2], main := .reduced, crashed := false }

/-- A schedule in which worker 1 is received first and every goroutine runs to
its end. -/
def exampleSchedule : List Event :=
  [.send .w1, .workerDone .w1, .send .w0, .send .w2, .workerDone .w2, .workerDone .w0,
    .waitReturns, .closeResults, .rangeEnds, .callReduce]

/-- A schedule in which workers 1 and 2 send and finish, the call of `Map` in
worker 0 panics, its deferred `wg.Done()` brings the counter to zero, and the
closing goroutine and `main` run on to the call of `reduce`; the run time has
not yet terminated the program. -/
def panicSchedule : List Event :=
  [.send .w1, .workerDone .w1, .send .w2, .workerDone .w2, .mapPanics .w0, .workerDone .w0,
    .waitReturns, .closeResults, .rangeEnds, .callReduce]

/-- The state at the end of `panicSchedule`: `reduce` has been called and worker
0 has sent nothing. -/
def panicFinal : MainState :=
  { phase0 := .aborted, phase1 := .done, phase2 := .done, counter := 0,
    closer := .closed, received := [.w1, .w2], main := .reduced, crashed := false }

/-! ## Reference definitions

The definitions of this section follow the words of the specification; the
theorems compare them with the functions translated from the code. -/

/-- The records of one file as the specification sees them: what `readCSV`
returns when it succeeds, and nothing for a file that could not be read. -/
def recordsOf (fs : FileSystem) (dir file : String) : List Population :=
  match readCSV fs (dir ++ "/" ++ file) with
  | .ok filePopulations => filePopulations
  | _ => []

/-- The specification of the filter task on one file: the records of the file
whose value reaches the threshold, in the order they were read. -/
def keptOf (fs : FileSystem) (dir : String) (min_pop : Int) (file : String) :
    List Population :=
  (recordsOf fs dir file).filter (fun pop => decide (pop.Population ≥ min_pop))

/-- The specification of the filter task: the kept records of every assigned
file, in the order the files were assigned. -/
def MapSpec (fs : FileSystem) (worker : Worker) (dir : String) (min_pop : Int) :
    List Population :=
  worker.Files.flatMap (keptOf fs dir min_pop)

/-- Whether reading the file panics. -/
def readPanics (fs : FileSystem) (dir file : String) : Bool :=
  match readCSV fs (dir ++ "/" ++ file) with
  | .panic => true
  | _ => false

/-- The specification of the reducer: for each state in ranked order, a header
line with the state and its frequency (the number of records sharing the state),
then one line per member of its group (the records with that state, in the order
of the input). -/
def reduceSpec (rt : GoRuntime) (pop_list : List Population) : String :=
  String.join ((sortStatesByFrequency rt (countStateFrequency pop_list)).map (fun state =>
    (state ++ ": " ++ toString (pop_list.countP (fun pop => decide (pop.State = state))) ++ "\n")
      ++ String.join ((pop_list.filter (fun pop => decide (pop.State = state))).map
        (fun member => "- " ++ member.City ++ ", " ++ toString member.Population ++ "\n"))))

/-- The record the specification makes of one row: `City` is field 0, `State` is
field 1 and `Population` is the integer value of field 2; there is none when a
field is missing or field 2 is not an integer. -/
def rowRecord (row : List String) : Option Population :=
  match row[0]?, row[1]?, row[2]? with
  | some city, some state, some field2 =>
    (Atoi field2).map (fun population =>
      { State := state, City := city, Population := population })
  | _, _, _ => none

/-- What `csv.Reader.ReadAll` guarantees of the rows it returns with the default
setting `FieldsPerRecord = 0`: every row has as many fields as the first one, so
all rows have the same number of fields. -/
def csvUniform (rows : List (List String)) : Prop :=
  ∀ row ∈ rows, ∀ other ∈ rows, row.length = other.length

/-! ## Example inputs -/

/-- A file system in which `data/cities1.csv` holds three rows, `data/cities4.csv`
cannot be opened and every other path holds one row. -/
def exampleFiles : FileSystem := fun path =>
  if path = "data/cities1.csv" then
    .records [["LA", "CA", "5000"], ["Fresno", "CA", "1000"], ["Weed", "CA", "999"]]
  else if path = "data/cities4.csv" then .openError
  else .records [["NYC", "NY", "9000"]]

/-- A file system in which every path holds the same three rows. -/
def uniformFiles : FileSystem := fun _ =>
  .records [["LA", "CA", "5000"], ["Fresno", "CA", "1000"], ["Weed", "CA", "999"]]

/-- A file system in which `data/cities2.csv` holds one row of two fields, as the
CSV reader returns it for the file content `Springfield,IL`, and every other
path holds one well-formed row. -/
def shortRowFiles : FileSystem := fun path =>
  if path = "data/cities2.csv" then .records [["Springfield", "IL"]]
  else .records [["NYC", "NY", "9000"]]

/-- A file system in which `data/cities1.csv` holds the row `LA,CA,5000`,
`data/cities2.csv` holds one row of two fields and every other path holds the
row `NYC,NY,9000`. -/
def lostRecordFiles : FileSystem := fun path =>
  if path = "data/cities1.csv" then .records [["LA", "CA", "5000"]]
  else if path = "data/cities2.csv" then .records [["Springfield", "IL"]]
  else .records [["NYC", "NY", "9000"]]

/-- Two records of two states, each state occurring once. -/
def tiedInput : List Population :=
  [{ State := "CA", City := "LA", Population := 1 },
    { State := "NY", City := "NYC", Population := 2 }]

/-- Three records: `CA` twice, `NY` once. -/
def rankedInput : List Population :=
  [{ State := "NY", City := "NYC", Population := 9000 },
    { State := "CA", City := "LA", Population := 5000 },
    { State := "CA", City := "SF", Population := 3000 }]

/-- The full input set of the program: the ten files `cities1.csv` to
`cities10.csv`. -/
def inputFiles : List String :=
  ["cities1.csv", "cities2.csv", "cities3.csv", "cities4.csv", "cities5.csv",
    "cities6.csv", "cities7.csv", "cities8.csv", "cities9.csv", "cities10.csv"]

/-- The three records of the worked scenario, in the order they are read. -/
def scenarioRecords : List Population :=
  [{ State := "CA", City := "LA", Population := 5000 },
    { State := "CA", City := "SF", Population := 3000 },
    { State := "NY", City := "NYC", Population := 9000 }]

/-- A file system for the worked scenario: `data/cities1.csv` holds the three
rows of the scenario and every other file is empty. -/
def scenarioFiles : FileSystem := fun path =>
  if path = "data/cities1.csv" then
    .records [["LA", "CA", "5000"], ["SF", "CA", "3000"], ["NYC", "NY", "9000"]]
  else .records []

/-- A file system in which `data/cities1.csv` begins with a header row, in
`data/cities2.csv` a well-formed row precedes a row whose third field is not an
integer, and every other path holds one well-formed row. -/
def headerFiles : FileSystem := fun path =>
  if path = "data/cities1.csv" then
    .records [["City", "State", "Population"], ["LA", "CA", "5000"]]
  else if path = "data/cities2.csv" then
    .records [["LA", "CA", "5000"], ["Fresno", "CA", "n/a"]]
  else .records [["NYC", "NY", "9000"]]

/-! ## Two run times

Insertion sort is what Go's `sort.Slice` runs on a slice of at most twelve
elements.  The two run times below use it and differ in the order of map
iteration. -/

/-- The inner loop of insertion sort: `x` stands right of the sorted part, given
here from its last element to its first, and is swapped with its left neighbour
for as long as it is less than that neighbour. -/
def insertBackward (less : String → String → Bool) (x : String) : List String → List String
  | [] => [x]
  | y :: ys => if less x y then y :: insertBackward less x ys else x :: y :: ys

/-- Insertion sort with the comparison `less`. -/
def insertionSort (less : String → String → Bool) (xs : List String) : List String :=
  (xs.foldl (fun sortedPart x => insertBackward less x sortedPart) []).reverse

theorem insertBackward_perm (less : String → String → Bool) (x : String) (ys : List String) :
    (insertBackward less x ys).Perm (x :: ys) := by
  induction ys with
  | nil => simp [insertBackward]
  | cons y ys ih =>
    by_cases h : less x y = true
    · simp only [insertBackward, h, if_true]
      exact (List.Perm.cons y ih).trans (List.Perm.swap x y ys)
    · simp [insertBackward, h]

theorem insertBackward_pairwise (less : String → String → Bool) (hless : StrictWeak less)
    (x : String) (ys : List String) (hys : ys.Pairwise (fun a b => less a b = false)) :
    (insertBackward less x ys).Pairwise (fun a b => less a b = false) := by
  induction ys with
  | nil => simp [insertBackward]
  | cons y ys ih =>
    have hy := List.pairwise_cons.mp hys
    by_cases h : less x y = true
    · simp only [insertBackward, h, if_true]
      refine List.pairwise_cons.mpr ⟨?_, ih hy.2⟩
      intro z hz
      rcases List.mem_cons.mp ((insertBackward_perm less x ys).mem_iff.mp hz) with hzx | hzy
      · rw [hzx]
        exact hless.1 _ _ h
      · exact hy.1 z hzy
    · have hxy : less x y = false := by simpa using h
      simp only [insertBackward, hxy]
      refine List.pairwise_cons.mpr ⟨?_, hys⟩
      intro z hz
      rcases List.mem_cons.mp hz with hzy | hzy
      · subst hzy
        exact hxy
      · exact hless.2 x y z hxy (hy.1 z hzy)

theorem insertionSort_fold_perm (less : String → String → Bool) (xs acc : List String) :
    (xs.foldl (fun sortedPart x => insertBackward less x sortedPart) acc).Perm (xs ++ acc) := by
  induction xs generalizing acc with
  | nil => simp
  | cons x xs ih =>
    simp only [List.foldl_cons]
    refine (ih _).trans ?_
    refine (List.Perm.append_left xs (insertBackward_perm less x acc)).trans ?_
    simp

theorem insertionSort_perm (less : String → String → Bool) (xs : List String) :
    (insertionSort less xs).Perm xs := by
  unfold insertionSort
  refine (List.reverse_perm _).trans ?_
  simpa using insertionSort_fold_perm less xs []

theorem insertionSort_fold_pairwise (less : String → String → Bool) (hless : StrictWeak less)
    (xs acc : List String) (hacc : acc.Pairwise (fun a b => less a b = false)) :
    (xs.foldl (fun sortedPart x => insertBackward less x sortedPart) acc).Pairwise
      (fun a b => less a b = false) := by
  induction xs generalizing acc with
  | nil => simpa using hacc
  | cons x xs ih =>
    simp only [List.foldl_cons]
    exact ih _ (insertBackward_pairwise less hless x acc hacc)

theorem insertionSort_sorted (less : String → String → Bool) (xs : List String)
    (hless : StrictWeak less) :
    (insertionSort less xs).Pairwise (fun a b => less b a = false) := by
  unfold insertionSort
  rw [List.pairwise_reverse]
  exact insertionSort_fold_pairwise less hless xs [] List.Pairwise.nil

/-- A run time that iterates over a map in insertion order. -/
def runtimeForward : GoRuntime where
  rangeOrder := fun ks => ks
  rangeOrder_perm := fun ks => List.Perm.refl ks
  sortSlice := insertionSort
  sortSlice_perm := insertionSort_perm
  sortSlice_sorted := insertionSort_sorted

/-- A run time that iterates over a map in the reverse of insertion order. -/
def runtimeBackward : GoRuntime where
  rangeOrder := fun ks => ks.reverse
  rangeOrder_perm := fun ks => List.reverse_perm ks
  sortSlice := insertionSort
  sortSlice_perm := insertionSort_perm
  sortSlice_sorted := insertionSort_sorted

/-! ## `Map`: general facts -/

theorem Map.keep_eq (min_pop : Int) (filePopulations populations : List Population) :
    Map.keep min_pop filePopulations populations =
      populations ++ filePopulations.filter (fun pop => decide (pop.Population ≥ min_pop)) := by
  unfold Map.keep
  induction filePopulations generalizing populations with
  | nil => simp
  | cons pop rest ih =>
    by_cases h : pop.Population ≥ min_pop
    · simp [List.foldl_cons, h, ih]
    · simp [List.foldl_cons, h, ih]

theorem Map.loop_eq (fs : FileSystem) (dir : String) (min_pop : Int) (files : List String)
    (populations : List Population) :
    Map.loop fs dir min_pop files populations =
      if files.any (readPanics fs dir) = true then none
      else some (populations ++ files.flatMap (keptOf fs dir min_pop)) := by
  induction files generalizing populations with
  | nil => simp [Map.loop]
  | cons file files ih =>
    cases hread : readCSV fs (dir ++ "/" ++ file) with
    | ok filePopulations =>
      simp only [Map.loop, hread, ih, List.any_cons, readPanics, Bool.false_or,
        List.flatMap_cons, keptOf, recordsOf, Map.keep_eq, List.append_assoc]
    | error err =>
      simp only [Map.loop, hread, ih, List.any_cons, readPanics, Bool.false_or,
        List.flatMap_cons, keptOf, recordsOf, List.filter_nil, List.nil_append]
    | panic =>
      simp [Map.loop, hread, readPanics]

theorem Map_eq (fs : FileSystem) (worker : Worker) (dir : String) (min_pop : Int) :
    Map fs worker dir min_pop =
      if worker.Files.any (readPanics fs dir) = true then none
      else some (MapSpec fs worker dir min_pop) := by
  simp [Map, Map.loop_eq, MapSpec]

theorem readPanics_eq_false_iff (fs : FileSystem) (dir file : String) :
    readPanics fs dir file = false ↔ readCSV fs (dir ++ "/" ++ file) ≠ .panic := by
  unfold readPanics
  cases readCSV fs (dir ++ "/" ++ file) <;> simp

theorem any_readPanics_eq_false (fs : FileSystem) (dir : String) (files : List String)
    (h : ∀ file ∈ files, readCSV fs (dir ++ "/" ++ file) ≠ .panic) :
    files.any (readPanics fs dir) = false := by
  rw [List.any_eq_false]
  intro file hfile
  simpa using (readPanics_eq_false_iff fs dir file).mpr (h file hfile)

/-! ## The fan-in: general facts -/

theorem collect_fold_eq (received : List (List Population)) (allPopulations : List Population) :
    received.foldl (fun allPopulations populationList => allPopulations ++ populationList)
      allPopulations = allPopulations ++ received.flatten := by
  induction received generalizing allPopulations with
  | nil => simp
  | cons populationList received ih => simp [List.foldl_cons, ih]

theorem collect_eq (received : List (List Population)) : collect received = received.flatten := by
  simp [collect, collect_fold_eq]

theorem mapM_Map_eq (fs : FileSystem) (dir : String) (min_pop : Int) (order : List Worker) :
    order.mapM (fun worker => Map fs worker dir min_pop) =
      if order.any (fun worker => worker.Files.any (readPanics fs dir)) = true then none
      else some (order.map (fun worker => MapSpec fs worker dir min_pop)) := by
  induction order with
  | nil => rfl
  | cons worker order ih =>
    rw [List.mapM_cons, ih, Map_eq]
    by_cases h1 : worker.Files.any (readPanics fs dir) = true
    · simp [h1]
    · by_cases h2 : order.any (fun worker => worker.Files.any (readPanics fs dir)) = true
      · simp only [List.any_cons, h1, h2]
        simp
      · simp only [List.any_cons, h1, h2]
        simp

theorem mainCombined_eq (fs : FileSystem) (dir : String) (min_pop : Int) (order : List Worker) :
    mainCombined fs dir min_pop order =
      if order.any (fun worker => worker.Files.any (readPanics fs dir)) = true then none
      else some (order.flatMap (fun worker => MapSpec fs worker dir min_pop)) := by
  unfold mainCombined
  rw [mapM_Map_eq]
  split
  · rfl
  · simp [collect_eq, List.flatMap_def]

theorem filter_flatMap_eq {α β : Type} (p : β → Bool) (f : α → List β) (l : List α) :
    (l.flatMap f).filter p = l.flatMap (fun a => (f a).filter p) := by
  induction l with
  | nil => simp
  | cons a l ih => simp [List.flatMap_cons, List.filter_append, ih]

theorem flatMap_MapSpec_perm (fs : FileSystem) (dir : String) (min_pop : Int)
    (order : List Worker) (horder : order.Perm workers) :
    (order.flatMap (fun worker => MapSpec fs worker dir min_pop)).Perm
      ((allFiles.flatMap (recordsOf fs dir)).filter
        (fun pop => decide (pop.Population ≥ min_pop))) := by
  have h1 := List.Perm.flatMap_right (fun worker => MapSpec fs worker dir min_pop) horder
  refine h1.trans ?_
  have h2 : workers.flatMap (fun worker => MapSpec fs worker dir min_pop) =
      allFiles.flatMap (keptOf fs dir min_pop) := by
    simp only [allFiles, MapSpec, List.flatMap_assoc]
  rw [h2, filter_flatMap_eq]
  exact List.Perm.of_eq rfl

theorem any_workers_readPanics (fs : FileSystem) (dir : String) (order : List Worker)
    (horder : order.Perm workers) :
    order.any (fun worker => worker.Files.any (readPanics fs dir)) = true ↔
      ∃ file ∈ allFiles, readCSV fs (dir ++ "/" ++ file) = .panic := by
  simp only [List.any_eq_true, allFiles, List.mem_flatMap]
  constructor
  · rintro ⟨worker, hworker, file, hfile, hpanic⟩
    refine ⟨file, ⟨worker, horder.mem_iff.mp hworker, hfile⟩, ?_⟩
    by_contra hne
    rw [(readPanics_eq_false_iff fs dir file).mpr hne] at hpanic
    exact Bool.false_ne_true hpanic
  · rintro ⟨file, ⟨worker, hworker, hfile⟩, hpanic⟩
    refine ⟨worker, horder.mem_iff.mpr hworker, file, hfile, ?_⟩
    simp [readPanics, hpanic]

/-! ## The claims about `Map` and the fan-in -/

/-- The combined list when the results of the three workers are all received:
whatever the threshold, the content of the ten files and the order in which the
results are received, there is such a list unless a read panics, every record of
it has a population of at least the threshold, and it is a permutation of the
records with such a population taken from every successfully read file, so each
of them occurs in it as often as in the files. -/
theorem mainCombined_sound_complete (fs : FileSystem) (dir : String) (min_pop : Int)
    (order : List Worker) (horder : order.Perm workers) :
    ((∀ file ∈ allFiles, readCSV fs (dir ++ "/" ++ file) ≠ .panic) →
      ∃ combined, mainCombined fs dir min_pop order = some combined) ∧
    (∀ combined, mainCombined fs dir min_pop order = some combined →
      (∀ pop ∈ combined, pop.Population ≥ min_pop) ∧
      combined.Perm ((allFiles.flatMap (recordsOf fs dir)).filter
        (fun pop => decide (pop.Population ≥ min_pop))) ∧
      (∀ pop, pop.Population ≥ min_pop →
        combined.count pop = (allFiles.flatMap (recordsOf fs dir)).count pop)) := by
  have hperm := flatMap_MapSpec_perm fs dir min_pop order horder
  constructor
  · intro hread
    have hnone : ¬ (order.any (fun worker => worker.Files.any (readPanics fs dir)) = true) := by
      rw [any_workers_readPanics fs dir order horder]
      rintro ⟨file, hfile, hpanic⟩
      exact hread file hfile hpanic
    exact ⟨_, by rw [mainCombined_eq, if_neg hnone]⟩
  · intro combined hcombined
    rw [mainCombined_eq] at hcombined
    split at hcombined
    · cases hcombined
    · cases hcombined
      refine ⟨?_, hperm, ?_⟩
      · intro pop hpop
        have hmem := hperm.mem_iff.mp hpop
        simpa using (List.mem_filter.mp hmem).2
      · intro pop hpop
        rw [hperm.count_eq, List.count_filter]
        simpa using hpop

/-- The combined list at an example: the files of `exampleFiles` in `data`,
threshold 1000, the result of worker 2 received first. -/
theorem mainCombined_sound_complete_witness :
    [worker2, worker0, worker1].Perm workers ∧
    (((∀ file ∈ allFiles, readCSV exampleFiles ("data" ++ "/" ++ file) ≠ .panic) →
      ∃ combined, mainCombined exampleFiles "data" 1000 [worker2, worker0, worker1] =
        some combined) ∧
    (∀ combined, mainCombined exampleFiles "data" 1000 [worker2, worker0, worker1] =
        some combined →
      (∀ pop ∈ combined, pop.Population ≥ 1000) ∧
      combined.Perm ((allFiles.flatMap (recordsOf exampleFiles "data")).filter
        (fun pop => decide (pop.Population ≥ 1000))) ∧
      (∀ pop, pop.Population ≥ 1000 →
        combined.count pop = (allFiles.flatMap (recordsOf exampleFiles "data")).count pop))) ∧
    mainCombined exampleFiles "data" 1000 [worker2, worker0, worker1] =
      some ([{ State := "NY", City := "NYC", Population := 9000 },
          { State := "NY", City := "NYC", Population := 9000 },
          { State := "NY", City := "NYC", Population := 9000 },
          { State := "NY", City := "NYC", Population := 9000 }] ++
        [{ State := "CA", City := "LA", Population := 5000 },
          { State := "CA", City := "Fresno", Population := 1000 },
          { State := "NY", City := "NYC", Population := 9000 },
          { State := "NY", City := "NYC", Population := 9000 }] ++
        [{ State := "NY", City := "NYC", Population := 9000 },
          { State := "NY", City := "NYC", Population := 9000 }]) :=
  ⟨by decide, mainCombined_sound_complete exampleFiles "data" 1000 [worker2, worker0, worker1]
    (by decide), by decide⟩

/-- C2. `Map` equals its reference definition: when every assigned file is read
successfully, `Map` returns the concatenation, in assigned-file order, of the
records of each file with a population of at least `min_pop`, in the order of
the file; a record is in the result exactly when it is a record of an assigned
file with `Population >= min_pop`, equality included. -/
theorem Map_eq_MapSpec (fs : FileSystem) (worker : Worker) (dir : String) (min_pop : Int)
    (hread : ∀ file ∈ worker.Files,
      ∃ filePopulations, readCSV fs (dir ++ "/" ++ file) = .ok filePopulations) :
    Map fs worker dir min_pop = some (MapSpec fs worker dir min_pop) ∧
    (∀ pop, pop ∈ MapSpec fs worker dir min_pop ↔
      ∃ file ∈ worker.Files, pop ∈ recordsOf fs dir file ∧ pop.Population ≥ min_pop) ∧
    (∀ file ∈ worker.Files, ∀ pop ∈ recordsOf fs dir file,
      pop.Population = min_pop → pop ∈ MapSpec fs worker dir min_pop) := by
  have hmem : ∀ pop, pop ∈ MapSpec fs worker dir min_pop ↔
      ∃ file ∈ worker.Files, pop ∈ recordsOf fs dir file ∧ pop.Population ≥ min_pop := by
    intro pop
    simp [MapSpec, keptOf, List.mem_flatMap, List.mem_filter]
  refine ⟨?_, hmem, ?_⟩
  · rw [Map_eq, if_neg]
    rw [any_readPanics_eq_false fs dir worker.Files]
    · exact Bool.false_ne_true
    · intro file hfile hpanic
      obtain ⟨filePopulations, hok⟩ := hread file hfile
      rw [hok] at hpanic
      cases hpanic
  · intro file hfile pop hpop heq
    exact (hmem pop).mpr ⟨file, hfile, hpop, le_of_eq heq.symm⟩

/-- C2 at an example: worker 0 on files that all hold the same three rows, with
threshold 1000. -/
theorem Map_eq_MapSpec_witness :
    (∀ file ∈ worker0.Files,
      ∃ filePopulations, readCSV uniformFiles ("data" ++ "/" ++ file) = .ok filePopulations) ∧
    (Map uniformFiles worker0 "data" 1000 = some (MapSpec uniformFiles worker0 "data" 1000) ∧
    (∀ pop, pop ∈ MapSpec uniformFiles worker0 "data" 1000 ↔
      ∃ file ∈ worker0.Files, pop ∈ recordsOf uniformFiles "data" file ∧ pop.Population ≥ 1000) ∧
    (∀ file ∈ worker0.Files, ∀ pop ∈ recordsOf uniformFiles "data" file,
      pop.Population = 1000 → pop ∈ MapSpec uniformFiles worker0 "data" 1000)) :=
  ⟨fun _ _ => ⟨_, rfl⟩,
    Map_eq_MapSpec uniformFiles worker0 "data" 1000 (fun _ _ => ⟨_, rfl⟩)⟩

/-- C3. `Map` skips a failing source and continues: when reading one assigned
file returns an error, `Map` does exactly what it does on the file list without
that file; it returns normally, with the kept records of the other files in
their order, whenever no other read panics; and with three assigned files of
which one returns an error, the result is the kept records of the other two,
wherever the failing file stands. -/
theorem Map_skips_failing_file (fs : FileSystem) (dir : String) (min_pop : Int)
    (before after : List String) (file : String) (err : GoError)
    (hfail : readCSV fs (dir ++ "/" ++ file) = .error err) :
    Map fs { Files := before ++ file :: after } dir min_pop =
      Map fs { Files := before ++ after } dir min_pop ∧
    ((∀ other ∈ before ++ after, readCSV fs (dir ++ "/" ++ other) ≠ .panic) →
      Map fs { Files := before ++ file :: after } dir min_pop =
        some (MapSpec fs { Files := before ++ after } dir min_pop)) ∧
    (∀ first second,
      readCSV fs (dir ++ "/" ++ first) ≠ .panic →
      readCSV fs (dir ++ "/" ++ second) ≠ .panic →
      ∀ files ∈ [[file, first, second], [first, file, second], [first, second, file]],
        Map fs { Files := files } dir min_pop =
          some (keptOf fs dir min_pop first ++ keptOf fs dir min_pop second)) := by
  have hkept : keptOf fs dir min_pop file = [] := by simp [keptOf, recordsOf, hfail]
  have hpanic : readPanics fs dir file = false := by simp [readPanics, hfail]
  have hskip : Map fs { Files := before ++ file :: after } dir min_pop =
      Map fs { Files := before ++ after } dir min_pop := by
    simp [Map_eq, MapSpec, hkept, hpanic]
  refine ⟨hskip, ?_, ?_⟩
  · intro hother
    rw [hskip, Map_eq, if_neg]
    rw [any_readPanics_eq_false fs dir _ hother]
    exact Bool.false_ne_true
  · intro first second hfirst hsecond files hfiles
    have hp1 : readPanics fs dir first = false := (readPanics_eq_false_iff fs dir first).mpr hfirst
    have hp2 : readPanics fs dir second = false :=
      (readPanics_eq_false_iff fs dir second).mpr hsecond
    simp only [List.mem_cons, List.mem_singleton, List.not_mem_nil, or_false] at hfiles
    rcases hfiles with h | h | h <;> subst h <;>
      simp [Map_eq, MapSpec, hkept, hpanic, hp1, hp2]

/-- C3 at an example: worker 1 of `exampleFiles`, whose first file cannot be
opened; the result is the one record of each of its two other files. -/
theorem Map_skips_failing_file_witness :
    readCSV exampleFiles ("data" ++ "/" ++ "cities4.csv") =
      .error (.openFailed "data/cities4.csv") ∧
    (Map exampleFiles { Files := [] ++ "cities4.csv" :: ["cities5.csv", "cities6.csv"] }
        "data" 1000 =
      Map exampleFiles { Files := [] ++ ["cities5.csv", "cities6.csv"] } "data" 1000 ∧
    ((∀ other ∈ [] ++ ["cities5.csv", "cities6.csv"],
        readCSV exampleFiles ("data" ++ "/" ++ other) ≠ .panic) →
      Map exampleFiles { Files := [] ++ "cities4.csv" :: ["cities5.csv", "cities6.csv"] }
          "data" 1000 =
        some (MapSpec exampleFiles { Files := [] ++ ["cities5.csv", "cities6.csv"] }
          "data" 1000)) ∧
    (∀ first second,
      readCSV exampleFiles ("data" ++ "/" ++ first) ≠ .panic →
      readCSV exampleFiles ("data" ++ "/" ++ second) ≠ .panic →
      ∀ files ∈ [["cities4.csv", first, second], [first, "cities4.csv", second],
          [first, second, "cities4.csv"]],
        Map exampleFiles { Files := files } "data" 1000 =
          some (keptOf exampleFiles "data" 1000 first ++
            keptOf exampleFiles "data" 1000 second))) ∧
    Map exampleFiles worker1 "data" 1000 =
      some [{ State := "NY", City := "NYC", Population := 9000 },
        { State := "NY", City := "NYC", Population := 9000 }] :=
  ⟨by decide,
    Map_skips_failing_file exampleFiles "data" 1000 [] ["cities5.csv", "cities6.csv"]
      "cities4.csv" (.openFailed "data/cities4.csv") (by decide),
    by decide⟩

/-! ## Go maps: general facts -/

theorem GoMap.get_set {V : Type} (zero : V) (m : GoMap V) (key : String) (val : V)
    (other : String) :
    GoMap.get zero (GoMap.set m key val) other =
      if key = other then val else GoMap.get zero m other := by
  induction m with
  | nil => simp [GoMap.set, GoMap.get]
  | cons entry m ih =>
    obtain ⟨k, v⟩ := entry
    by_cases hk : k = key
    · subst hk
      by_cases ho : k = other
      · simp [GoMap.set, GoMap.get, ho]
      · simp [GoMap.set, GoMap.get, ho]
    · by_cases ho : k = other
      · subst ho
        have hne : ¬ key = k := fun h => hk h.symm
        simp [GoMap.set, GoMap.get, hk, hne]
      · simp [GoMap.set, GoMap.get, hk, ho, ih]

theorem GoMap.keys_set {V : Type} (m : GoMap V) (key : String) (val : V) :
    GoMap.keys (GoMap.set m key val) =
      if key ∈ GoMap.keys m then GoMap.keys m else GoMap.keys m ++ [key] := by
  induction m with
  | nil => simp [GoMap.set, GoMap.keys]
  | cons entry m ih =>
    obtain ⟨k, v⟩ := entry
    by_cases hk : k = key
    · subst hk
      simp [GoMap.set, GoMap.keys]
    · have hne : ¬ key = k := fun h => hk h.symm
      have ih2 : List.map Prod.fst (GoMap.set m key val) =
          if key ∈ List.map Prod.fst m then List.map Prod.fst m
          else List.map Prod.fst m ++ [key] := ih
      simp only [GoMap.set, GoMap.keys, hk, if_false, List.map_cons, List.mem_cons, hne,
        false_or, ih2]
      split <;> simp

theorem GoMap.keys_set_nodup {V : Type} (m : GoMap V) (key : String) (val : V)
    (h : (GoMap.keys m).Nodup) : (GoMap.keys (GoMap.set m key val)).Nodup := by
  rw [GoMap.keys_set]
  split
  · exact h
  · rename_i hkey
    rw [List.nodup_append]
    refine ⟨h, List.nodup_singleton key, ?_⟩
    intro a ha hb
    rw [List.mem_singleton] at hb
    subst hb
    exact hkey ha

theorem GoMap.mem_keys_set {V : Type} (m : GoMap V) (key : String) (val : V) (other : String) :
    other ∈ GoMap.keys (GoMap.set m key val) ↔ other ∈ GoMap.keys m ∨ other = key := by
  rw [GoMap.keys_set]
  split
  · rename_i hkey
    constructor
    · exact Or.inl
    · rintro (h | h)
      · exact h
      · rw [h]
        exact hkey
  · simp

theorem GoMap.values_sum_set (m : GoMap Nat) (key : String) :
    ((GoMap.set m key (GoMap.get 0 m key + 1)).map Prod.snd).sum = (m.map Prod.snd).sum + 1 := by
  induction m with
  | nil => simp [GoMap.set, GoMap.get]
  | cons entry m ih =>
    obtain ⟨k, v⟩ := entry
    by_cases hk : k = key
    · simp [GoMap.set, GoMap.get, hk]
      omega
    · simp [GoMap.set, GoMap.get, hk, ih]
      omega

theorem GoMap.map_get_keys (m : GoMap Nat) (h : (GoMap.keys m).Nodup) :
    (GoMap.keys m).map (GoMap.get 0 m) = m.map Prod.snd := by
  induction m with
  | nil => simp [GoMap.keys]
  | cons entry m ih =>
    obtain ⟨k, v⟩ := entry
    have hn : k ∉ GoMap.keys m ∧ (GoMap.keys m).Nodup := by
      simpa [GoMap.keys] using h
    have htail : (GoMap.keys m).map (GoMap.get 0 ((k, v) :: m)) =
        (GoMap.keys m).map (GoMap.get 0 m) := by
      apply List.map_congr_left
      intro other hother
      have hne : ¬ k = other := by
        intro heq
        rw [heq] at hn
        exact hn.1 hother
      simp [GoMap.get, hne]
    have hsplit : GoMap.keys ((k, v) :: m) = k :: GoMap.keys m := rfl
    rw [hsplit, List.map_cons, htail, ih hn.2]
    simp [GoMap.get]

/-! ## `countStateFrequency` and `stateMap`: general facts -/

theorem countFold_get (pop_list : List Population) (stateCount : GoMap Nat) (state : String) :
    GoMap.get 0 (pop_list.foldl
      (fun stateCount pop => stateCount.set pop.State (stateCount.get 0 pop.State + 1))
      stateCount) state =
      GoMap.get 0 stateCount state + pop_list.countP (fun pop => decide (pop.State = state)) := by
  induction pop_list generalizing stateCount with
  | nil => simp
  | cons pop pop_list ih =>
    rw [List.foldl_cons, ih, GoMap.get_set, List.countP_cons]
    by_cases h : pop.State = state
    · simp [h]
      omega
    · simp [h]

theorem countFold_keys_nodup (pop_list : List Population) (stateCount : GoMap Nat)
    (h : (GoMap.keys stateCount).Nodup) :
    (GoMap.keys (pop_list.foldl
      (fun stateCount pop => stateCount.set pop.State (stateCount.get 0 pop.State + 1))
      stateCount)).Nodup := by
  induction pop_list generalizing stateCount with
  | nil => simpa using h
  | cons pop pop_list ih =>
    rw [List.foldl_cons]
    exact ih _ (GoMap.keys_set_nodup stateCount _ _ h)

theorem countFold_mem_keys (pop_list : List Population) (stateCount : GoMap Nat)
    (state : String) :
    state ∈ GoMap.keys (pop_list.foldl
      (fun stateCount pop => stateCount.set pop.State (stateCount.get 0 pop.State + 1))
      stateCount) ↔
      state ∈ GoMap.keys stateCount ∨ ∃ pop ∈ pop_list, pop.State = state := by
  induction pop_list generalizing stateCount with
  | nil => simp
  | cons pop pop_list ih =>
    rw [List.foldl_cons, ih, GoMap.mem_keys_set]
    constructor
    · rintro ((h | h) | ⟨other, hother, hstate⟩)
      · exact Or.inl h
      · exact Or.inr ⟨pop, List.mem_cons_self _ _, h.symm⟩
      · exact Or.inr ⟨other, List.mem_cons_of_mem _ hother, hstate⟩
    · rintro (h | ⟨other, hother, hstate⟩)
      · exact Or.inl (Or.inl h)
      · rcases List.mem_cons.mp hother with heq | hmem
        · rw [heq] at hstate
          exact Or.inl (Or.inr hstate.symm)
        · exact Or.inr ⟨other, hmem, hstate⟩

theorem countFold_values_sum (pop_list : List Population) (stateCount : GoMap Nat) :
    ((pop_list.foldl
      (fun stateCount pop => stateCount.set pop.State (stateCount.get 0 pop.State + 1))
      stateCount).map Prod.snd).sum = (stateCount.map Prod.snd).sum + pop_list.length := by
  induction pop_list generalizing stateCount with
  | nil => simp
  | cons pop pop_list ih =>
    rw [List.foldl_cons, ih, GoMap.values_sum_set, List.length_cons]
    omega

theorem countStateFrequency_get (pop_list : List Population) (state : String) :
    GoMap.get 0 (countStateFrequency pop_list) state =
      pop_list.countP (fun pop => decide (pop.State = state)) := by
  unfold countStateFrequency
  rw [countFold_get]
  simp [GoMap.get]

theorem countStateFrequency_keys_nodup (pop_list : List Population) :
    (GoMap.keys (countStateFrequency pop_list)).Nodup :=
  countFold_keys_nodup pop_list [] (by simp [GoMap.keys])

theorem countStateFrequency_mem_keys (pop_list : List Population) (state : String) :
    state ∈ GoMap.keys (countStateFrequency pop_list) ↔ ∃ pop ∈ pop_list, pop.State = state := by
  unfold countStateFrequency
  rw [countFold_mem_keys]
  simp [GoMap.keys]

theorem countStateFrequency_keys_sum (pop_list : List Population) :
    ((GoMap.keys (countStateFrequency pop_list)).map
      (GoMap.get 0 (countStateFrequency pop_list))).sum = pop_list.length := by
  rw [GoMap.map_get_keys _ (countStateFrequency_keys_nodup pop_list)]
  unfold countStateFrequency
  rw [countFold_values_sum]
  simp

theorem stateMapFold_get (pop_list : List Population) (stateMap : GoMap (List Population))
    (state : String) :
    GoMap.get [] (pop_list.foldl
      (fun stateMap pop => stateMap.set pop.State (stateMap.get [] pop.State ++ [pop]))
      stateMap) state =
      GoMap.get [] stateMap state ++ pop_list.filter (fun pop => decide (pop.State = state)) := by
  induction pop_list generalizing stateMap with
  | nil => simp
  | cons pop pop_list ih =>
    rw [List.foldl_cons, ih, GoMap.get_set]
    by_cases h : pop.State = state
    · simp [h, List.filter_cons]
    · simp [h, List.filter_cons]

theorem stateMap_get (pop_list : List Population) (state : String) :
    GoMap.get [] (reduce.stateMap pop_list) state =
      pop_list.filter (fun pop => decide (pop.State = state)) := by
  unfold reduce.stateMap
  rw [stateMapFold_get]
  simp [GoMap.get]

/-! ## `sortStatesByFrequency` and `reduce`: general facts -/

theorem appendFold_eq (xs states : List String) :
    xs.foldl (fun states state => states ++ [state]) states = states ++ xs := by
  induction xs generalizing states with
  | nil => simp
  | cons x xs ih => simp [List.foldl_cons, ih]

theorem strictWeak_frequency (stateCount : GoMap Nat) :
    StrictWeak (fun a b => decide (stateCount.get 0 a > stateCount.get 0 b)) := by
  constructor
  · intro a b h
    simp only [decide_eq_true_eq, decide_eq_false_iff_not] at *
    omega
  · intro a b c h1 h2
    simp only [decide_eq_true_eq, decide_eq_false_iff_not] at *
    omega

theorem sortStatesByFrequency_perm (rt : GoRuntime) (stateCount : GoMap Nat) :
    (sortStatesByFrequency rt stateCount).Perm (GoMap.keys stateCount) := by
  unfold sortStatesByFrequency
  simp only [appendFold_eq, List.nil_append]
  exact (rt.sortSlice_perm _ _).trans (rt.rangeOrder_perm _)

theorem sortStatesByFrequency_pairwise (rt : GoRuntime) (stateCount : GoMap Nat) :
    (sortStatesByFrequency rt stateCount).Pairwise
      (fun earlier later => stateCount.get 0 earlier ≥ stateCount.get 0 later) := by
  unfold sortStatesByFrequency
  refine (rt.sortSlice_sorted _ _ (strictWeak_frequency stateCount)).imp ?_
  intro a b h
  simp only [decide_eq_false_iff_not] at h
  omega

theorem sortStatesByFrequency_nodup (rt : GoRuntime) (pop_list : List Population) :
    (sortStatesByFrequency rt (countStateFrequency pop_list)).Nodup :=
  (sortStatesByFrequency_perm rt _).nodup_iff.mpr (countStateFrequency_keys_nodup pop_list)

theorem sortStatesByFrequency_mem (rt : GoRuntime) (pop_list : List Population)
    (state : String) :
    state ∈ sortStatesByFrequency rt (countStateFrequency pop_list) ↔
      ∃ pop ∈ pop_list, pop.State = state := by
  rw [(sortStatesByFrequency_perm rt _).mem_iff, countStateFrequency_mem_keys]

theorem join_fold_eq (xs : List String) (output : String) :
    xs.foldl (fun r s => r ++ s) output = output ++ String.join xs := by
  induction xs generalizing output with
  | nil => simp [String.join]
  | cons x xs ih =>
    have hjoin : String.join (x :: xs) = x ++ String.join xs := by
      have h := ih x
      simpa [String.join] using h
    rw [List.foldl_cons, ih, hjoin, String.append_assoc]

theorem joinFold_eq {α : Type} (f : α → String) (xs : List α) (output : String) :
    xs.foldl (fun output x => output ++ f x) output = output ++ String.join (xs.map f) := by
  rw [← join_fold_eq, List.foldl_map]

theorem reduce_eq_reduceSpec (rt : GoRuntime) (pop_list : List Population) :
    reduce rt pop_list = reduceSpec rt pop_list := by
  have hcity : cityLine =
      fun member => "- " ++ member.City ++ ", " ++ toString member.Population ++ "\n" := by
    funext member
    rfl
  unfold reduce reduceSpec
  simp only [joinFold_eq cityLine, String.append_assoc]
  rw [joinFold_eq (fun state =>
    headerLine state (GoMap.get 0 (countStateFrequency pop_list) state) ++
      String.join (List.map cityLine (GoMap.get [] (reduce.stateMap pop_list) state)))]
  simp only [String.empty_append, countStateFrequency_get, stateMap_get, headerLine, hcity,
    String.append_assoc]

/-! ## The claims about `reduce` -/

/-- C4. `reduce` renders the report in the specified format: its result is the
concatenation, over the states of `sortStatesByFrequency (countStateFrequency
input)` in that order, of the header line of the state with its frequency and
one line per member of the group of the state in the order of the group, and
nothing else; the frequency is `stateCount[state]`, which is the number of
records of the state, and the group is `stateMap[state]`, which is the records
of the state in input order. -/
theorem reduce_renders_report (rt : GoRuntime) (pop_list : List Population) :
    reduce rt pop_list = reduceSpec rt pop_list ∧
    reduce rt pop_list =
      String.join ((sortStatesByFrequency rt (countStateFrequency pop_list)).map (fun state =>
        (state ++ ": " ++ toString ((countStateFrequency pop_list).get 0 state) ++ "\n") ++
          String.join (((reduce.stateMap pop_list).get [] state).map (fun city =>
            "- " ++ city.City ++ ", " ++ toString city.Population ++ "\n")))) := by
  refine ⟨reduce_eq_reduceSpec rt pop_list, ?_⟩
  rw [reduce_eq_reduceSpec, reduceSpec]
  simp only [countStateFrequency_get, stateMap_get]

/-- C5. Groups are ordered by non-increasing frequency: in the list returned by
`sortStatesByFrequency (countStateFrequency input)`, whose order is the order of
the header lines of the report, a state that comes earlier never has a strictly
smaller frequency than a state that comes later, the frequency being the value
`stateCount[state]` printed in the header, that is the number of records of the
state. -/
theorem sortStatesByFrequency_nonincreasing (rt : GoRuntime) (pop_list : List Population) :
    (sortStatesByFrequency rt (countStateFrequency pop_list)).Pairwise
      (fun earlier later => ¬ ((countStateFrequency pop_list).get 0 earlier <
        (countStateFrequency pop_list).get 0 later)) ∧
    (sortStatesByFrequency rt (countStateFrequency pop_list)).Pairwise
      (fun earlier later =>
        pop_list.countP (fun pop => decide (pop.State = earlier)) ≥
          pop_list.countP (fun pop => decide (pop.State = later))) ∧
    reduce rt pop_list =
      String.join ((sortStatesByFrequency rt (countStateFrequency pop_list)).map (fun state =>
        headerLine state ((countStateFrequency pop_list).get 0 state) ++
          String.join ((pop_list.filter (fun pop => decide (pop.State = state))).map
            cityLine))) := by
  have hsorted := sortStatesByFrequency_pairwise rt (countStateFrequency pop_list)
  refine ⟨hsorted.imp (fun h => Nat.not_lt.mpr h), ?_, ?_⟩
  · simpa only [countStateFrequency_get] using hsorted
  · rw [reduce_eq_reduceSpec, reduceSpec]
    simp only [countStateFrequency_get]
    rfl

/-- C6. Grouping keeps key and order: for every state, the member list
`stateMap[state]` that `reduce` builds is the sublist of the input made of the
records whose `State` is that state, in input order; every member has the state
of its group, and no record is a member of the group of another state. -/
theorem stateMap_groups_by_state (pop_list : List Population) (state : String) :
    (reduce.stateMap pop_list).get [] state =
      pop_list.filter (fun pop => decide (pop.State = state)) ∧
    ((reduce.stateMap pop_list).get [] state).Sublist pop_list ∧
    (∀ member ∈ (reduce.stateMap pop_list).get [] state, member.State = state) ∧
    (∀ pop ∈ pop_list, pop.State ≠ state → pop ∉ (reduce.stateMap pop_list).get [] state) ∧
    (∀ pop ∈ pop_list, pop.State = state → pop ∈ (reduce.stateMap pop_list).get [] state) := by
  rw [stateMap_get]
  refine ⟨rfl, List.filter_sublist _, ?_, ?_, ?_⟩
  · intro member hmember
    simpa using (List.mem_filter.mp hmember).2
  · intro pop _ hne hmem
    exact hne (by simpa using (List.mem_filter.mp hmem).2)
  · intro pop hpop hstate
    exact List.mem_filter.mpr ⟨hpop, by simpa using hstate⟩

/-- C7. Frequencies account for every record: `countStateFrequency` maps each
state to the number of input records with that state (zero for a state that does
not occur), and the frequencies of the states listed by `sortStatesByFrequency`
add up to the length of the input. -/
theorem frequencies_account_for_input (rt : GoRuntime) (pop_list : List Population) :
    (∀ state, (countStateFrequency pop_list).get 0 state =
      pop_list.countP (fun pop => decide (pop.State = state))) ∧
    ((sortStatesByFrequency rt (countStateFrequency pop_list)).map
      ((countStateFrequency pop_list).get 0)).sum = pop_list.length := by
  refine ⟨countStateFrequency_get pop_list, ?_⟩
  rw [← countStateFrequency_keys_sum pop_list]
  exact ((sortStatesByFrequency_perm rt (countStateFrequency pop_list)).map _).sum_eq

theorem sortStatesByFrequency_strict (rt : GoRuntime) (pop_list : List Population)
    (hties : ∀ p ∈ pop_list, ∀ q ∈ pop_list,
      pop_list.countP (fun pop => decide (pop.State = p.State)) =
        pop_list.countP (fun pop => decide (pop.State = q.State)) → p.State = q.State) :
    (sortStatesByFrequency rt (countStateFrequency pop_list)).Pairwise
      (fun earlier later => (countStateFrequency pop_list).get 0 earlier >
        (countStateFrequency pop_list).get 0 later) := by
  have hsorted := sortStatesByFrequency_pairwise rt (countStateFrequency pop_list)
  have hnodup : (sortStatesByFrequency rt (countStateFrequency pop_list)).Pairwise
      (fun a b => a ≠ b) := sortStatesByFrequency_nodup rt pop_list
  refine List.Pairwise.imp_of_mem ?_ (hsorted.and hnodup)
  intro a b ha hb hab
  obtain ⟨p, hp, hpa⟩ := (sortStatesByFrequency_mem rt pop_list a).mp ha
  obtain ⟨q, hq, hqb⟩ := (sortStatesByFrequency_mem rt pop_list b).mp hb
  have hne : (countStateFrequency pop_list).get 0 a ≠ (countStateFrequency pop_list).get 0 b := by
    intro heq
    rw [countStateFrequency_get, countStateFrequency_get, ← hpa, ← hqb] at heq
    exact hab.2 (by rw [← hpa, ← hqb]; exact hties p hp q hq heq)
  have hge := hab.1
  omega

/-- C8, as the claim states it, fails: on two records of two different states,
each state having frequency one, a run that iterates over the map of counts in
insertion order and a run that iterates over it in the reverse order return
different strings. -/
theorem reduce_not_deterministic :
    reduce runtimeForward tiedInput = "CA: 1\n- LA, 1\nNY: 1\n- NYC, 2\n" ∧
    reduce runtimeBackward tiedInput = "NY: 1\n- NYC, 2\nCA: 1\n- LA, 1\n" ∧
    ¬ (∀ (rt1 rt2 : GoRuntime) (pop_list : List Population),
      reduce rt1 pop_list = reduce rt2 pop_list) := by
  refine ⟨by decide, by decide, ?_⟩
  intro h
  exact absurd (h runtimeForward runtimeBackward tiedInput) (by decide)

/-- C8, amended. When no two different states of the input have the same
frequency, any two evaluations of `reduce` on the input return the same string,
whatever order the map of counts is iterated in and whatever the sort does. -/
theorem reduce_deterministic_without_ties (rt1 rt2 : GoRuntime) (pop_list : List Population)
    (hties : ∀ p ∈ pop_list, ∀ q ∈ pop_list,
      pop_list.countP (fun pop => decide (pop.State = p.State)) =
        pop_list.countP (fun pop => decide (pop.State = q.State)) → p.State = q.State) :
    reduce rt1 pop_list = reduce rt2 pop_list := by
  have hperm : (sortStatesByFrequency rt1 (countStateFrequency pop_list)).Perm
      (sortStatesByFrequency rt2 (countStateFrequency pop_list)) :=
    (sortStatesByFrequency_perm rt1 _).trans (sortStatesByFrequency_perm rt2 _).symm
  haveI : IsAntisymm String (fun earlier later =>
      (countStateFrequency pop_list).get 0 earlier >
        (countStateFrequency pop_list).get 0 later) :=
    ⟨fun a b h1 h2 => absurd h1 (Nat.lt_asymm h2)⟩
  have hstates := List.eq_of_perm_of_sorted hperm
    (sortStatesByFrequency_strict rt1 pop_list hties)
    (sortStatesByFrequency_strict rt2 pop_list hties)
  rw [reduce_eq_reduceSpec, reduce_eq_reduceSpec, reduceSpec, reduceSpec, hstates]

/-- C8, amended, at an example: `CA` twice and `NY` once, with the two run times
that iterate over the map in opposite orders. -/
theorem reduce_deterministic_without_ties_witness :
    (∀ p ∈ rankedInput, ∀ q ∈ rankedInput,
      rankedInput.countP (fun pop => decide (pop.State = p.State)) =
        rankedInput.countP (fun pop => decide (pop.State = q.State)) → p.State = q.State) ∧
    reduce runtimeForward rankedInput = reduce runtimeBackward rankedInput :=
  ⟨by decide,
    reduce_deterministic_without_ties runtimeForward runtimeBackward rankedInput (by decide)⟩

/-- C9, at the failing input: the CSV reader returns one row of two fields for
`data/cities2.csv`; `readCSV` panics on the index expression `record[2]`, the
panic unwinds through `Map` of worker 0, although its two other files are well
formed, and no list collects the results of all three workers. -/
theorem readCSV_short_row_panics :
    readCSV shortRowFiles ("data" ++ "/" ++ "cities2.csv") = .panic ∧
    readCSV shortRowFiles ("data" ++ "/" ++ "cities1.csv") =
      .ok [{ State := "NY", City := "NYC", Population := 9000 }] ∧
    Map shortRowFiles worker0 "data" 1000 = none ∧
    mainCombined shortRowFiles "data" 1000 workers = none := by
  refine ⟨by decide, by decide, by decide, by decide⟩

/-- C10. One header per group: the list returned by `sortStatesByFrequency
(countStateFrequency input)` has no repetition and its elements are exactly the
values of `State` that occur in the input, so it is a permutation of the list of
distinct states; the report is, for each element of that list in turn, one
header line followed at once by the member lines of that state. -/
theorem one_header_per_state (rt : GoRuntime) (pop_list : List Population) :
    (sortStatesByFrequency rt (countStateFrequency pop_list)).Nodup ∧
    (∀ state, state ∈ sortStatesByFrequency rt (countStateFrequency pop_list) ↔
      ∃ pop ∈ pop_list, pop.State = state) ∧
    (∀ state, (sortStatesByFrequency rt (countStateFrequency pop_list)).count state =
      if state ∈ pop_list.map Population.State then 1 else 0) ∧
    (sortStatesByFrequency rt (countStateFrequency pop_list)).Perm
      (pop_list.map Population.State).dedup ∧
    reduce rt pop_list =
      String.join ((sortStatesByFrequency rt (countStateFrequency pop_list)).map (fun state =>
        headerLine state (pop_list.countP (fun pop => decide (pop.State = state))) ++
          String.join ((pop_list.filter (fun pop => decide (pop.State = state))).map
            cityLine))) := by
  have hnodup := sortStatesByFrequency_nodup rt pop_list
  have hmem := sortStatesByFrequency_mem rt pop_list
  refine ⟨hnodup, hmem, ?_, ?_, ?_⟩
  · intro state
    by_cases h : state ∈ pop_list.map Population.State
    · rw [if_pos h]
      exact List.count_eq_one_of_mem hnodup ((hmem state).mpr (by simpa using h))
    · rw [if_neg h]
      exact List.count_eq_zero_of_not_mem (fun hin => h (by simpa using (hmem state).mp hin))
  · rw [List.perm_ext_iff_of_nodup hnodup (List.nodup_dedup _)]
    intro state
    rw [hmem state, List.mem_dedup]
    simp
  · rw [reduce_eq_reduceSpec, reduceSpec]
    rfl

/-! ## Further claims about `Map` and the fan-in -/

/-- C19. `Map` distributes over concatenation of file lists: whatever each read
yields, `Map` on the files `A ++ B` does what `Map` on `A` followed by `Map` on
`B` does, returning the first result followed by the second (and panicking when
either does); `Map` on the empty file list returns the empty list. -/
theorem Map_append_files (fs : FileSystem) (dir : String) (min_pop : Int)
    (A B : List String) :
    Map fs { Files := A ++ B } dir min_pop =
      (Map fs { Files := A } dir min_pop).bind (fun fromA =>
        (Map fs { Files := B } dir min_pop).map (fun fromB => fromA ++ fromB)) ∧
    Map fs { Files := [] } dir min_pop = some [] := by
  refine ⟨?_, rfl⟩
  simp only [Map_eq, MapSpec, List.any_append, List.flatMap_append]
  by_cases hA : A.any (readPanics fs dir) = true
  · simp [hA]
  · by_cases hB : B.any (readPanics fs dir) = true
    · simp [hA, hB]
    · simp [hA, hB]

/-- C14. The fan-in neither drops nor duplicates a partial result: whatever
lists are received on the channel and in whatever order, `allPopulations` after
the collection loop is their concatenation in receive order; its length is the
sum of their lengths, every record occurs in it as often as in the partial lists
together, an empty partial list changes nothing, and the list `main` hands to
`reduce` is the collection of the results of `Map` in receive order. -/
theorem collect_concatenates (received : List (List Population)) :
    collect received = received.flatten ∧
    (collect received).length = (received.map List.length).sum ∧
    (∀ pop, (collect received).count pop = (received.map (List.count pop)).sum) ∧
    (∀ before after, received = before ++ [] :: after →
      collect received = collect (before ++ after)) ∧
    (∀ (fs : FileSystem) (dir : String) (min_pop : Int) (order : List Worker),
      order.mapM (fun worker => Map fs worker dir min_pop) = some received →
      mainCombined fs dir min_pop order = some (collect received)) := by
  refine ⟨collect_eq received, ?_, ?_, ?_, ?_⟩
  · rw [collect_eq, List.length_flatten]
  · intro pop
    rw [collect_eq, List.count_flatten]
  · intro before after h
    rw [h, collect_eq, collect_eq]
    simp
  · intro fs dir min_pop order h
    unfold mainCombined
    rw [h]
    rfl

/-- C15. The partition assignment is exhaustive and non-overlapping: the file
lists of the three workers have no repetition, no file is on two of them, and
together they are exactly the ten input files, so every input file is assigned
to exactly one worker. -/
theorem workers_partition_inputFiles :
    worker0.Files.Nodup ∧ worker1.Files.Nodup ∧ worker2.Files.Nodup ∧
    (∀ file ∈ worker0.Files, file ∉ worker1.Files ∧ file ∉ worker2.Files) ∧
    (∀ file ∈ worker1.Files, file ∉ worker0.Files ∧ file ∉ worker2.Files) ∧
    (∀ file ∈ worker2.Files, file ∉ worker0.Files ∧ file ∉ worker1.Files) ∧
    (worker0.Files ++ worker1.Files ++ worker2.Files).Perm inputFiles ∧
    allFiles.Nodup ∧
    (∀ file, file ∈ inputFiles ↔
      file ∈ worker0.Files ∨ file ∈ worker1.Files ∨ file ∈ worker2.Files) ∧
    (∀ file ∈ inputFiles,
      (workers.filter (fun worker => decide (file ∈ worker.Files))).length = 1) := by
  refine ⟨by decide, by decide, by decide, by decide, by decide, by decide, by decide,
    by decide, ?_, by decide⟩
  intro file
  simp [inputFiles, worker0, worker1, worker2]
  tauto

/-! ## Further claims about `reduce` -/

theorem GoMap.mem_iff_get (m : GoMap Nat) (h : (GoMap.keys m).Nodup) (key : String) (val : Nat) :
    (key, val) ∈ m ↔ key ∈ GoMap.keys m ∧ GoMap.get 0 m key = val := by
  induction m with
  | nil => simp [GoMap.keys]
  | cons entry m ih =>
    obtain ⟨k, v⟩ := entry
    have hn : k ∉ GoMap.keys m ∧ (GoMap.keys m).Nodup := by
      simpa [GoMap.keys] using h
    have hkeys : GoMap.keys ((k, v) :: m) = k :: GoMap.keys m := rfl
    rw [hkeys, List.mem_cons, List.mem_cons, ih hn.2]
    by_cases hk : k = key
    · subst hk
      simp [GoMap.get, hn.1]
      exact eq_comm
    · have hne : ¬ key = k := fun heq => hk heq.symm
      simp [GoMap.get, hk, hne]

theorem countStateFrequency_get_perm (first second : List Population)
    (hperm : first.Perm second) (state : String) :
    (countStateFrequency first).get 0 state = (countStateFrequency second).get 0 state := by
  rw [countStateFrequency_get, countStateFrequency_get]
  exact hperm.countP_eq _

theorem countStateFrequency_perm (first second : List Population) (hperm : first.Perm second) :
    (countStateFrequency first).Perm (countStateFrequency second) := by
  have hn1 := countStateFrequency_keys_nodup first
  have hn2 := countStateFrequency_keys_nodup second
  rw [List.perm_ext_iff_of_nodup (List.Nodup.of_map _ hn1) (List.Nodup.of_map _ hn2)]
  rintro ⟨key, val⟩
  rw [GoMap.mem_iff_get _ hn1, GoMap.mem_iff_get _ hn2, countStateFrequency_mem_keys,
    countStateFrequency_mem_keys, countStateFrequency_get_perm first second hperm]
  constructor
  · rintro ⟨⟨pop, hpop, hstate⟩, hval⟩
    exact ⟨⟨pop, hperm.mem_iff.mp hpop, hstate⟩, hval⟩
  · rintro ⟨⟨pop, hpop, hstate⟩, hval⟩
    exact ⟨⟨pop, hperm.mem_iff.mpr hpop, hstate⟩, hval⟩

/-- C11. Grouping and ranking do not depend on the order of the combined list:
for two input lists that are permutations of each other, `countStateFrequency`
returns the same map (the same entries, hence the same frequency for every
state), so in any two runs `reduce` emits the same set of headers with the same
frequencies, and the members under each header are the same up to their order. -/
theorem grouping_independent_of_order (first second : List Population)
    (hperm : first.Perm second) :
    (countStateFrequency first).Perm (countStateFrequency second) ∧
    (∀ state, (countStateFrequency first).get 0 state =
      (countStateFrequency second).get 0 state) ∧
    (∀ rt1 rt2 : GoRuntime,
      ((sortStatesByFrequency rt1 (countStateFrequency first)).map
        (fun state => (state, (countStateFrequency first).get 0 state))).Perm
      ((sortStatesByFrequency rt2 (countStateFrequency second)).map
        (fun state => (state, (countStateFrequency second).get 0 state))) ∧
      ((sortStatesByFrequency rt1 (countStateFrequency first)).map
        (fun state => headerLine state ((countStateFrequency first).get 0 state))).Perm
      ((sortStatesByFrequency rt2 (countStateFrequency second)).map
        (fun state => headerLine state ((countStateFrequency second).get 0 state)))) ∧
    (∀ state, ((reduce.stateMap first).get [] state).Perm
      ((reduce.stateMap second).get [] state)) := by
  have hentries := countStateFrequency_perm first second hperm
  have hget := countStateFrequency_get_perm first second hperm
  have hfun : (fun state => (countStateFrequency first).get 0 state) =
      fun state => (countStateFrequency second).get 0 state := funext hget
  have hstates : ∀ rt1 rt2 : GoRuntime,
      (sortStatesByFrequency rt1 (countStateFrequency first)).Perm
        (sortStatesByFrequency rt2 (countStateFrequency second)) := by
    intro rt1 rt2
    refine (sortStatesByFrequency_perm rt1 _).trans ?_
    refine List.Perm.trans ?_ (sortStatesByFrequency_perm rt2 _).symm
    exact hentries.map Prod.fst
  refine ⟨hentries, hget, ?_, ?_⟩
  · intro rt1 rt2
    simp only [hget]
    exact ⟨(hstates rt1 rt2).map _, (hstates rt1 rt2).map _⟩
  · intro state
    rw [stateMap_get, stateMap_get]
    exact hperm.filter _

/-- C11 at an example: `tiedInput` and its reverse, whose maps of counts list
the same entries in a different insertion order. -/
theorem grouping_independent_of_order_witness :
    tiedInput.Perm tiedInput.reverse ∧
    ((countStateFrequency tiedInput).Perm (countStateFrequency tiedInput.reverse) ∧
    (∀ state, (countStateFrequency tiedInput).get 0 state =
      (countStateFrequency tiedInput.reverse).get 0 state) ∧
    (∀ rt1 rt2 : GoRuntime,
      ((sortStatesByFrequency rt1 (countStateFrequency tiedInput)).map
        (fun state => (state, (countStateFrequency tiedInput).get 0 state))).Perm
      ((sortStatesByFrequency rt2 (countStateFrequency tiedInput.reverse)).map
        (fun state => (state, (countStateFrequency tiedInput.reverse).get 0 state))) ∧
      ((sortStatesByFrequency rt1 (countStateFrequency tiedInput)).map
        (fun state => headerLine state ((countStateFrequency tiedInput).get 0 state))).Perm
      ((sortStatesByFrequency rt2 (countStateFrequency tiedInput.reverse)).map
        (fun state =>
          headerLine state ((countStateFrequency tiedInput.reverse).get 0 state)))) ∧
    (∀ state, ((reduce.stateMap tiedInput).get [] state).Perm
      ((reduce.stateMap tiedInput.reverse).get [] state))) ∧
    countStateFrequency tiedInput = [("CA", 1), ("NY", 1)] ∧
    countStateFrequency tiedInput.reverse = [("NY", 1), ("CA", 1)] :=
  ⟨(List.reverse_perm tiedInput).symm,
    grouping_independent_of_order tiedInput tiedInput.reverse
      (List.reverse_perm tiedInput).symm,
    by decide, by decide⟩

theorem sortStatesByFrequency_eq_of_no_ties (rt1 rt2 : GoRuntime) (pop_list : List Population)
    (hties : ∀ p ∈ pop_list, ∀ q ∈ pop_list,
      pop_list.countP (fun pop => decide (pop.State = p.State)) =
        pop_list.countP (fun pop => decide (pop.State = q.State)) → p.State = q.State) :
    sortStatesByFrequency rt1 (countStateFrequency pop_list) =
      sortStatesByFrequency rt2 (countStateFrequency pop_list) := by
  have hperm : (sortStatesByFrequency rt1 (countStateFrequency pop_list)).Perm
      (sortStatesByFrequency rt2 (countStateFrequency pop_list)) :=
    (sortStatesByFrequency_perm rt1 _).trans (sortStatesByFrequency_perm rt2 _).symm
  haveI : IsAntisymm String (fun earlier later =>
      (countStateFrequency pop_list).get 0 earlier >
        (countStateFrequency pop_list).get 0 later) :=
    ⟨fun a b h1 h2 => absurd h1 (Nat.lt_asymm h2)⟩
  exact List.eq_of_perm_of_sorted hperm
    (sortStatesByFrequency_strict rt1 pop_list hties)
    (sortStatesByFrequency_strict rt2 pop_list hties)

theorem reduce_eq_of_no_ties (rt1 rt2 : GoRuntime) (pop_list : List Population)
    (hties : ∀ p ∈ pop_list, ∀ q ∈ pop_list,
      pop_list.countP (fun pop => decide (pop.State = p.State)) =
        pop_list.countP (fun pop => decide (pop.State = q.State)) → p.State = q.State) :
    reduce rt1 pop_list = reduce rt2 pop_list := by
  rw [reduce_eq_reduceSpec, reduce_eq_reduceSpec, reduceSpec, reduceSpec,
    sortStatesByFrequency_eq_of_no_ties rt1 rt2 pop_list hties]

/-- C13. The worked scenario: the rows `LA,CA,5000`, `SF,CA,3000` and
`NYC,NY,9000` are read in that order, `Map` with threshold 1000 keeps the three
records in order, and `reduce` returns, in every run, the report with `CA: 2`
before `NY: 1` and `LA` before `SF` under `CA`. -/
theorem worked_scenario :
    readCSV scenarioFiles ("data" ++ "/" ++ "cities1.csv") = .ok scenarioRecords ∧
    Map scenarioFiles { Files := ["cities1.csv"] } "data" 1000 = some scenarioRecords ∧
    Map scenarioFiles worker0 "data" 1000 = some scenarioRecords ∧
    mainCombined scenarioFiles "data" 1000 workers = some scenarioRecords ∧
    mainCombined scenarioFiles "data" 1000 [worker2, worker1, worker0] = some scenarioRecords ∧
    (∀ rt : GoRuntime, sortStatesByFrequency rt (countStateFrequency scenarioRecords) =
      ["CA", "NY"]) ∧
    (∀ rt : GoRuntime, reduce rt scenarioRecords =
      "CA: 2\n- LA, 5000\n- SF, 3000\nNY: 1\n- NYC, 9000\n") := by
  refine ⟨by decide, by decide, by decide, by decide, by decide, ?_, ?_⟩
  · intro rt
    rw [sortStatesByFrequency_eq_of_no_ties rt runtimeForward scenarioRecords (by decide)]
    decide
  · intro rt
    rw [reduce_eq_of_no_ties rt runtimeForward scenarioRecords (by decide)]
    decide

/-! ## Further facts and claims about `readCSV` -/

theorem rowRecord_cons (city state field2 : String) (rest : List String) :
    rowRecord (city :: state :: field2 :: rest) =
      (Atoi field2).map (fun population =>
        { State := state, City := city, Population := population }) := by
  simp [rowRecord]

theorem readCSV.loop_ok (rows : List (List String)) (populations : List Population)
    (hrows : ∀ row ∈ rows, 3 ≤ row.length ∧
      ∃ field2 population, row[2]? = some field2 ∧ Atoi field2 = some population) :
    ∃ made, readCSV.loop rows populations = .ok (populations ++ made) ∧
      rows.map rowRecord = made.map some := by
  induction rows generalizing populations with
  | nil => exact ⟨[], by simp [readCSV.loop], rfl⟩
  | cons row rows ih =>
    obtain ⟨hlen, field2, population, hfield, hatoi⟩ := hrows row (List.mem_cons_self _ _)
    match row, hlen, hfield with
    | city :: state :: third :: rest, _, hfield =>
      have hthird : third = field2 := by simpa using hfield
      subst hthird
      obtain ⟨made, hmade, hmap⟩ :=
        ih (populations ++ [{ State := state, City := city, Population := population }])
          (fun other hother => hrows other (List.mem_cons_of_mem _ hother))
      refine ⟨{ State := state, City := city, Population := population } :: made, ?_, ?_⟩
      · simp only [readCSV.loop, hatoi, hmade, List.append_assoc, List.singleton_append]
      · simp [rowRecord_cons, hatoi, hmap]

theorem readCSV.loop_error (rows : List (List String)) (populations : List Population)
    (hlen : ∀ row ∈ rows, 3 ≤ row.length)
    (hbad : ∃ bad ∈ rows, ∃ field2, bad[2]? = some field2 ∧ Atoi field2 = none) :
    ∃ err, readCSV.loop rows populations = .error err := by
  induction rows generalizing populations with
  | nil =>
    obtain ⟨bad, hmem, _⟩ := hbad
    cases hmem
  | cons row rows ih =>
    match row, hlen row (List.mem_cons_self _ _), hbad with
    | city :: state :: third :: rest, _, hbad =>
      cases hatoi : Atoi third with
      | none => exact ⟨.atoiFailed third, by simp only [readCSV.loop, hatoi]⟩
      | some population =>
        simp only [readCSV.loop, hatoi]
        apply ih _ (fun other hother => hlen other (List.mem_cons_of_mem _ hother))
        obtain ⟨bad, hmem, field2, hfield, hnone⟩ := hbad
        rcases List.mem_cons.mp hmem with heq | htail
        · subst heq
          have hthird : third = field2 := by simpa using hfield
          rw [hthird, hnone] at hatoi
          cases hatoi
        · exact ⟨bad, htail, field2, hfield, hnone⟩

theorem rowRecord_fields (row : List String) (pop : Population)
    (h : rowRecord row = some pop) :
    row[0]? = some pop.City ∧ row[1]? = some pop.State ∧
      (row[2]?).bind Atoi = some pop.Population := by
  match row with
  | [] => simp [rowRecord] at h
  | [_] => simp [rowRecord] at h
  | [_, _] => simp [rowRecord] at h
  | city :: state :: field2 :: rest =>
    rw [rowRecord_cons] at h
    cases hatoi : Atoi field2 with
    | none => simp [hatoi] at h
    | some population =>
      simp only [hatoi, Option.map_some', Option.some.injEq] at h
      subst h
      simp [hatoi]

theorem forall₂_of_map_rowRecord (rows : List (List String)) (populations : List Population)
    (h : rows.map rowRecord = populations.map some) :
    List.Forall₂ (fun row pop => row[0]? = some pop.City ∧ row[1]? = some pop.State ∧
      (row[2]?).bind Atoi = some pop.Population) rows populations := by
  induction rows generalizing populations with
  | nil =>
    cases populations with
    | nil => exact List.Forall₂.nil
    | cons pop populations => simp at h
  | cons row rows ih =>
    cases populations with
    | nil => simp at h
    | cons pop populations =>
      simp only [List.map_cons, List.cons.injEq] at h
      exact List.Forall₂.cons (rowRecord_fields row pop h.1) (ih populations h.2)

theorem third_field_of_bind (row : List String) (val : Option Int) (hlen : 3 ≤ row.length)
    (h : (row[2]?).bind Atoi = val) : ∃ field2, row[2]? = some field2 ∧ Atoi field2 = val := by
  match row, hlen with
  | _ :: _ :: field2 :: _, _ => exact ⟨field2, by simp, by simpa using h⟩

/-- C17. `readCSV` makes one record per row: when every row has at least three
fields and its third field parses as an integer, `readCSV` succeeds and returns
as many records as there are rows, the record of each row in row order, with
`City` field 0, `State` field 1 and `Population` the integer value of field 2. -/
theorem readCSV_one_record_per_row (fs : FileSystem) (filePath : String)
    (rows : List (List String)) (hfs : fs filePath = .records rows)
    (hrows : ∀ row ∈ rows, 3 ≤ row.length ∧ ((row[2]?).bind Atoi).isSome = true) :
    ∃ populations, readCSV fs filePath = .ok populations ∧
      populations.length = rows.length ∧
      rows.map rowRecord = populations.map some ∧
      List.Forall₂ (fun row pop => row[0]? = some pop.City ∧ row[1]? = some pop.State ∧
        (row[2]?).bind Atoi = some pop.Population) rows populations := by
  have hrows2 : ∀ row ∈ rows, 3 ≤ row.length ∧
      ∃ field2 population, row[2]? = some field2 ∧ Atoi field2 = some population := by
    intro row hrow
    obtain ⟨hlen, hsome⟩ := hrows row hrow
    obtain ⟨population, hpop⟩ := Option.isSome_iff_exists.mp hsome
    obtain ⟨field2, hfield, hatoi⟩ := third_field_of_bind row (some population) hlen hpop
    exact ⟨hlen, field2, population, hfield, hatoi⟩
  obtain ⟨made, hmade, hmap⟩ := readCSV.loop_ok rows [] hrows2
  refine ⟨made, ?_, ?_, hmap, forall₂_of_map_rowRecord rows made hmap⟩
  · simp only [readCSV, hfs, hmade, List.nil_append]
  · have hlen := congrArg List.length hmap
    simpa using hlen.symm

/-- C17 at an example: the three rows of `data/cities1.csv` in `uniformFiles`. -/
theorem readCSV_one_record_per_row_witness :
    uniformFiles "data/cities1.csv" =
      .records [["LA", "CA", "5000"], ["Fresno", "CA", "1000"], ["Weed", "CA", "999"]] ∧
    (∀ row ∈ [["LA", "CA", "5000"], ["Fresno", "CA", "1000"], ["Weed", "CA", "999"]],
      3 ≤ row.length ∧ ((row[2]?).bind Atoi).isSome = true) ∧
    (∃ populations, readCSV uniformFiles "data/cities1.csv" = .ok populations ∧
      populations.length =
        [["LA", "CA", "5000"], ["Fresno", "CA", "1000"], ["Weed", "CA", "999"]].length ∧
      [["LA", "CA", "5000"], ["Fresno", "CA", "1000"], ["Weed", "CA", "999"]].map rowRecord =
        populations.map some ∧
      List.Forall₂ (fun row pop => row[0]? = some pop.City ∧ row[1]? = some pop.State ∧
        (row[2]?).bind Atoi = some pop.Population)
        [["LA", "CA", "5000"], ["Fresno", "CA", "1000"], ["Weed", "CA", "999"]] populations) ∧
    readCSV uniformFiles "data/cities1.csv" =
      .ok [{ State := "CA", City := "LA", Population := 5000 },
        { State := "CA", City := "Fresno", Population := 1000 },
        { State := "CA", City := "Weed", Population := 999 }] :=
  ⟨rfl, by decide,
    readCSV_one_record_per_row uniformFiles "data/cities1.csv" _ rfl (by decide),
    by decide⟩

/-- C18. A file is rejected as a whole: when a row of a file has a third field
that is not an integer, `readCSV` returns an error and no records, so the file
contributes nothing to the result of `Map`, whatever the threshold and whatever
well-formed rows precede the bad row; `Map` does what it does without the file. -/
theorem readCSV_rejects_whole_file (fs : FileSystem) (dir file : String)
    (rows : List (List String)) (hfs : fs (dir ++ "/" ++ file) = .records rows)
    (huniform : csvUniform rows)
    (hbad : ∃ bad ∈ rows, 3 ≤ bad.length ∧ (bad[2]?).bind Atoi = none) :
    (∃ err, readCSV fs (dir ++ "/" ++ file) = .error err) ∧
    recordsOf fs dir file = [] ∧
    (∀ min_pop, keptOf fs dir min_pop file = []) ∧
    (∀ min_pop, Map fs { Files := [file] } dir min_pop = some []) ∧
    (∀ min_pop before after, Map fs { Files := before ++ file :: after } dir min_pop =
      Map fs { Files := before ++ after } dir min_pop) := by
  obtain ⟨bad, hmem, hbadlen, hbind⟩ := hbad
  have hlen : ∀ row ∈ rows, 3 ≤ row.length := by
    intro row hrow
    rw [huniform row hrow bad hmem]
    exact hbadlen
  obtain ⟨field2, hfield, hnone⟩ := third_field_of_bind bad none hbadlen hbind
  obtain ⟨err, herr⟩ := readCSV.loop_error rows [] hlen ⟨bad, hmem, field2, hfield, hnone⟩
  have hread : readCSV fs (dir ++ "/" ++ file) = .error err := by
    simp only [readCSV, hfs, herr]
  have hrecords : recordsOf fs dir file = [] := by simp [recordsOf, hread]
  have hkept : ∀ min_pop, keptOf fs dir min_pop file = [] := by
    intro min_pop
    simp [keptOf, hrecords]
  have hpanic : readPanics fs dir file = false := by simp [readPanics, hread]
  refine ⟨⟨err, hread⟩, hrecords, hkept, ?_, ?_⟩
  · intro min_pop
    simp [Map_eq, MapSpec, hkept, hpanic]
  · intro min_pop before after
    simp [Map_eq, MapSpec, hkept, hpanic]

/-- C18 at an example: `data/cities2.csv` of `headerFiles`, where a well-formed
row with population 5000 precedes the bad row; and `data/cities1.csv`, which
begins with a header row. -/
theorem readCSV_rejects_whole_file_witness :
    headerFiles ("data" ++ "/" ++ "cities2.csv") =
      .records [["LA", "CA", "5000"], ["Fresno", "CA", "n/a"]] ∧
    csvUniform [["LA", "CA", "5000"], ["Fresno", "CA", "n/a"]] ∧
    (∃ bad ∈ [["LA", "CA", "5000"], ["Fresno", "CA", "n/a"]],
      3 ≤ bad.length ∧ (bad[2]?).bind Atoi = none) ∧
    ((∃ err, readCSV headerFiles ("data" ++ "/" ++ "cities2.csv") = .error err) ∧
      recordsOf headerFiles "data" "cities2.csv" = [] ∧
      (∀ min_pop, keptOf headerFiles "data" min_pop "cities2.csv" = []) ∧
      (∀ min_pop, Map headerFiles { Files := ["cities2.csv"] } "data" min_pop = some []) ∧
      (∀ min_pop before after,
        Map headerFiles { Files := before ++ "cities2.csv" :: after } "data" min_pop =
          Map headerFiles { Files := before ++ after } "data" min_pop)) ∧
    readCSV headerFiles ("data" ++ "/" ++ "cities1.csv") =
      .error (.atoiFailed "Population") ∧
    Map headerFiles worker0 "data" 1000 =
      some [{ State := "NY", City := "NYC", Population := 9000 }] :=
  ⟨by decide, by unfold csvUniform; decide, by decide,
    readCSV_rejects_whole_file headerFiles "data" "cities2.csv"
      [["LA", "CA", "5000"], ["Fresno", "CA", "n/a"]] (by decide)
      (by unfold csvUniform; decide) (by decide),
    by decide, by decide⟩

/-! ## The no-result case -/

theorem reduce_nil (rt : GoRuntime) : reduce rt [] = "" := by
  have hstates : sortStatesByFrequency rt (countStateFrequency []) = [] :=
    List.Perm.eq_nil (sortStatesByFrequency_perm rt (countStateFrequency []))
  rw [reduce_eq_reduceSpec, reduceSpec, hstates]
  rfl

theorem MapSpec_below_threshold (fs : FileSystem) (worker : Worker) (dir : String)
    (min_pop : Int)
    (hbelow : ∀ file ∈ worker.Files, ∀ pop ∈ recordsOf fs dir file, pop.Population < min_pop) :
    MapSpec fs worker dir min_pop = [] := by
  unfold MapSpec
  rw [List.flatMap_eq_nil_iff]
  intro file hfile
  unfold keptOf
  rw [List.filter_eq_nil_iff]
  intro pop hpop
  have hlt := hbelow file hfile pop hpop
  simp only [ge_iff_le, decide_eq_true_eq, not_le]
  exact hlt

theorem Map_below_threshold (fs : FileSystem) (worker : Worker) (dir : String) (min_pop : Int)
    (hbelow : ∀ file ∈ worker.Files, ∀ pop ∈ recordsOf fs dir file, pop.Population < min_pop) :
    ((∀ file ∈ worker.Files, readCSV fs (dir ++ "/" ++ file) ≠ .panic) →
      Map fs worker dir min_pop = some []) ∧
    (∀ populations, Map fs worker dir min_pop = some populations → populations = []) := by
  have hspec := MapSpec_below_threshold fs worker dir min_pop hbelow
  constructor
  · intro hread
    rw [Map_eq, if_neg, hspec]
    rw [any_readPanics_eq_false fs dir worker.Files hread]
    exact Bool.false_ne_true
  · intro populations hmap
    rw [Map_eq, hspec] at hmap
    split at hmap
    · cases hmap
    · cases hmap
      rfl

/-- C12, at the failing input: `reduce` of the empty list is the empty string in
every run; but with the threshold 10000 above the population of every record of
`shortRowFiles`, the `Map` call of worker 0 panics on the two-field row of
`data/cities2.csv` instead of returning the empty list, the calls of the two
other workers return the empty list, and no list collects the results of all
three workers. -/
theorem no_result_case_short_row :
    (∀ rt : GoRuntime, reduce rt [] = "") ∧
    (∀ file ∈ allFiles, ∀ pop ∈ recordsOf shortRowFiles "data" file, pop.Population < 10000) ∧
    Map shortRowFiles worker0 "data" 10000 = none ∧
    Map shortRowFiles worker1 "data" 10000 = some [] ∧
    Map shortRowFiles worker2 "data" 10000 = some [] ∧
    mainCombined shortRowFiles "data" 10000 workers = none := by
  refine ⟨reduce_nil, by decide, by decide, by decide, by decide, by decide⟩

/-! ## The goroutines of `main`: the barrier -/

theorem Invariant_initial (panics : WorkerId → Bool) :
    MainState.initial.Invariant panics := by
  refine ⟨by decide, by decide, by decide, ?_, by decide, ?_⟩
  · intro i
    cases i <;> decide
  · intro i h
    cases i <;> simp [MainState.initial, MainState.phase] at h

theorem pending_running : pending .running = 1 := rfl

theorem pending_sent : pending .sent = 1 := rfl

theorem pending_unwinding : pending .unwinding = 1 := rfl

theorem pending_done : pending .done = 0 := rfl

theorem pending_aborted : pending .aborted = 0 := rfl

theorem pending_eq_one (p : WorkerPhase) (h1 : p ≠ .done) (h2 : p ≠ .aborted) :
    pending p = 1 := by
  cases p
  · rfl
  · rfl
  · exact absurd rfl h1
  · rfl
  · exact absurd rfl h2

theorem counter_pos_of_pending (s : MainState) (i : WorkerId)
    (hcount : s.counter = pending s.phase0 + pending s.phase1 + pending s.phase2)
    (hpend : pending (s.phase i) = 1) : s.counter ≠ 0 := by
  cases i <;> simp only [MainState.phase] at hpend <;> omega

theorem collecting_of_counter_pos (panics : WorkerId → Bool) (s : MainState)
    (hinv : s.Invariant panics) (hpos : s.counter ≠ 0) :
    s.closer = .waiting ∧ s.main = .collecting := by
  obtain ⟨_, hwait, hloop, _, _, _⟩ := hinv
  have hwaiting : s.closer = .waiting := by
    by_contra hne
    exact hpos (hwait hne)
  refine ⟨hwaiting, ?_⟩
  by_contra hne
  rw [hloop hne] at hwaiting
  cases hwaiting

theorem send_invariant (panics : WorkerId → Bool) (s : MainState) (i : WorkerId)
    (hinv : s.Invariant panics) (hrun : s.phase i = .running) :
    MainState.Invariant panics { s.setPhase i .sent with received := s.received ++ [i] } := by
  obtain ⟨hcount, hwait, hloop, hrecv, hnodup, hpanic⟩ := hinv
  have hnot : i ∉ s.received := by
    intro hmem
    rcases (hrecv i).mp hmem with h | h <;> rw [hrun] at h <;> cases h
  have hr := pending_running
  have hs := pending_sent
  refine ⟨?_, ?_, ?_, ?_, ?_, ?_⟩
  · cases i <;> simp only [MainState.phase] at hrun <;> rw [hrun] at hcount <;>
      simp only [MainState.setPhase] <;> omega
  · cases i <;> exact hwait
  · cases i <;> exact hloop
  · intro j
    have hj := hrecv j
    cases i <;> cases j <;> simp only [MainState.phase] at hrun hj <;>
      simp_all [MainState.setPhase, MainState.phase]
  · refine List.Nodup.append hnodup (List.nodup_singleton _) ?_
    intro a ha hi
    rw [List.mem_singleton] at hi
    rw [hi] at ha
    exact hnot ha
  · intro j hj
    have hpj := hpanic j
    cases i <;> cases j <;> simp only [MainState.phase] at hrun hpj <;>
      simp_all [MainState.setPhase, MainState.phase]

theorem unwinding_invariant (panics : WorkerId → Bool) (s : MainState) (i : WorkerId)
    (hinv : s.Invariant panics) (hrun : s.phase i = .running) (hi : panics i = true) :
    MainState.Invariant panics (s.setPhase i .unwinding) := by
  obtain ⟨hcount, hwait, hloop, hrecv, hnodup, hpanic⟩ := hinv
  have hr := pending_running
  have hu := pending_unwinding
  refine ⟨?_, ?_, ?_, ?_, ?_, ?_⟩
  · cases i <;> simp only [MainState.phase] at hrun <;> rw [hrun] at hcount <;>
      simp only [MainState.setPhase] <;> omega
  · cases i <;> exact hwait
  · cases i <;> exact hloop
  · intro j
    have hj := hrecv j
    cases i <;> cases j <;> simp only [MainState.phase] at hrun hj <;>
      simp_all [MainState.setPhase, MainState.phase]
  · cases i <;> exact hnodup
  · intro j hj
    have hpj := hpanic j
    cases i <;> cases j <;> simp only [MainState.phase] at hrun hpj <;>
      simp_all [MainState.setPhase, MainState.phase]

theorem workerDone_invariant (panics : WorkerId → Bool) (s : MainState) (i : WorkerId)
    (before after : WorkerPhase) (hinv : s.Invariant panics) (hphase : s.phase i = before)
    (hcases : (before = .sent ∧ after = .done) ∨ (before = .unwinding ∧ after = .aborted)) :
    MainState.Invariant panics { s.setPhase i after with counter := s.counter - 1 } := by
  have hb : pending before = 1 := by
    rcases hcases with ⟨h, _⟩ | ⟨h, _⟩ <;> rw [h] <;> rfl
  have ha : pending after = 0 := by
    rcases hcases with ⟨_, h⟩ | ⟨_, h⟩ <;> rw [h] <;> rfl
  have hpos : s.counter ≠ 0 := counter_pos_of_pending s i hinv.1 (by rw [hphase]; exact hb)
  obtain ⟨hwaiting, hcollecting⟩ := collecting_of_counter_pos panics s hinv hpos
  obtain ⟨hcount, hwait, hloop, hrecv, hnodup, hpanic⟩ := hinv
  refine ⟨?_, ?_, ?_, ?_, ?_, ?_⟩
  · cases i <;> simp only [MainState.phase] at hphase <;> rw [hphase] at hcount <;>
      simp only [MainState.setPhase] <;> omega
  · intro hne
    have hclo : s.closer ≠ .waiting := by cases i <;> exact hne
    exact absurd hwaiting hclo
  · intro hne
    have hmain : s.main ≠ .collecting := by cases i <;> exact hne
    exact absurd hcollecting hmain
  · intro j
    have hj := hrecv j
    rcases hcases with ⟨h1, h2⟩ | ⟨h1, h2⟩ <;> subst h1 <;> subst h2 <;>
      cases i <;> cases j <;> simp only [MainState.phase] at hphase hj <;>
      simp_all [MainState.setPhase, MainState.phase]
  · cases i <;> exact hnodup
  · intro j hj
    have hpj := hpanic j
    have hpi := hpanic i
    rcases hcases with ⟨h1, h2⟩ | ⟨h1, h2⟩ <;> subst h1 <;> subst h2 <;>
      cases i <;> cases j <;> simp only [MainState.phase] at hphase hpj hpi <;>
      simp_all [MainState.setPhase, MainState.phase]

theorem step_invariant (panics : WorkerId → Bool) (s next : MainState) (e : Event)
    (hstep : step panics s e = some next) (hinv : s.Invariant panics) :
    next.Invariant panics := by
  cases e with
  | send i =>
    simp only [step] at hstep
    split at hstep
    · rename_i hcond
      obtain ⟨_, _, hrun, hmain⟩ := hcond
      have hpos : s.counter ≠ 0 :=
        counter_pos_of_pending s i hinv.1 (by rw [hrun]; rfl)
      split at hstep
      · rename_i hclosed
        have hwaiting := (collecting_of_counter_pos panics s hinv hpos).1
        rw [hclosed] at hwaiting
        cases hwaiting
      · cases hstep
        exact send_invariant panics s i hinv hrun
    · cases hstep
  | mapPanics i =>
    simp only [step] at hstep
    split at hstep
    · rename_i hcond
      cases hstep
      exact unwinding_invariant panics s i hinv hcond.2.2 hcond.2.1
    · cases hstep
  | workerDone i =>
    simp only [step] at hstep
    split at hstep
    · rename_i hcond
      cases hstep
      exact workerDone_invariant panics s i .sent .done hinv hcond.2 (Or.inl ⟨rfl, rfl⟩)
    · split at hstep
      · rename_i hcond
        cases hstep
        exact workerDone_invariant panics s i .unwinding .aborted hinv hcond.2
          (Or.inr ⟨rfl, rfl⟩)
      · cases hstep
  | programExits =>
    simp only [step] at hstep
    split at hstep
    · cases hstep
      exact hinv
    · cases hstep
  | waitReturns =>
    obtain ⟨hcount, hwait, hloop, hrecv, hnodup, hpanic⟩ := hinv
    simp only [step] at hstep
    split at hstep
    · rename_i hcond
      obtain ⟨hok, hwaiting, hzero⟩ := hcond
      cases hstep
      refine ⟨hcount, fun _ => hzero, ?_, hrecv, hnodup, hpanic⟩
      intro hne
      have hclosed := hloop hne
      rw [hwaiting] at hclosed
      cases hclosed
    · cases hstep
  | closeResults =>
    obtain ⟨hcount, hwait, hloop, hrecv, hnodup, hpanic⟩ := hinv
    simp only [step] at hstep
    split at hstep
    · rename_i hcond
      obtain ⟨hok, hwoken⟩ := hcond
      cases hstep
      exact ⟨hcount, fun _ => hwait (by rw [hwoken]; decide), fun _ => rfl, hrecv, hnodup,
        hpanic⟩
    · cases hstep
  | rangeEnds =>
    obtain ⟨hcount, hwait, hloop, hrecv, hnodup, hpanic⟩ := hinv
    simp only [step] at hstep
    split at hstep
    · rename_i hcond
      obtain ⟨hok, hmain, hclosed⟩ := hcond
      cases hstep
      exact ⟨hcount, hwait, fun _ => hclosed, hrecv, hnodup, hpanic⟩
    · cases hstep
  | callReduce =>
    obtain ⟨hcount, hwait, hloop, hrecv, hnodup, hpanic⟩ := hinv
    simp only [step] at hstep
    split at hstep
    · rename_i hcond
      obtain ⟨hok, hmain⟩ := hcond
      cases hstep
      refine ⟨hcount, hwait, ?_, hrecv, hnodup, hpanic⟩
      intro _
      exact hloop (by rw [hmain]; decide)
    · cases hstep

theorem run_invariant (panics : WorkerId → Bool) (schedule : List Event) (s final : MainState)
    (hrun : run panics s schedule = some final) (hinv : s.Invariant panics) :
    final.Invariant panics := by
  induction schedule generalizing s with
  | nil =>
    simp only [run, Option.some.injEq] at hrun
    rw [← hrun]
    exact hinv
  | cons e schedule ih =>
    simp only [run] at hrun
    cases hstep : step panics s e with
    | none => rw [hstep] at hrun; cases hrun
    | some next =>
      rw [hstep] at hrun
      exact ih next hrun (step_invariant panics s next e hstep hinv)

theorem finished_of_counter_zero (panics : WorkerId → Bool) (s : MainState)
    (hinv : s.Invariant panics) (hzero : s.counter = 0) (i : WorkerId) :
    s.phase i = .done ∨ s.phase i = .aborted := by
  have hcount := hinv.1
  by_contra hne
  have hpend : pending (s.phase i) = 1 :=
    pending_eq_one _ (fun h => hne (Or.inl h)) (fun h => hne (Or.inr h))
  exact counter_pos_of_pending s i hcount hpend hzero

/-- The barrier as far as it holds in every execution: once the collection loop
has ended, every worker goroutine has run its deferred `wg.Done()`, after its
send or after a panic, and the received lists are those of the workers that
sent, each once. -/
theorem loop_ends_after_every_Done (panics : WorkerId → Bool) (schedule : List Event)
    (s : MainState) (hrun : run panics MainState.initial schedule = some s)
    (hmain : s.main ≠ .collecting) :
    (∀ i, s.phase i = .done ∨ s.phase i = .aborted) ∧ s.counter = 0 ∧ s.closer = .closed ∧
    (∀ i, i ∈ s.received ↔ s.phase i = .done) ∧ s.received.Nodup ∧
    (∀ i, s.phase i = .aborted → panics i = true) := by
  have hinv := run_invariant panics schedule MainState.initial s hrun (Invariant_initial panics)
  have hclosed := hinv.2.2.1 hmain
  have hzero : s.counter = 0 := hinv.2.1 (by rw [hclosed]; decide)
  have hfin := finished_of_counter_zero panics s hinv hzero
  refine ⟨hfin, hzero, hclosed, ?_, hinv.2.2.2.2.1, fun i h => hinv.2.2.2.2.2 i (Or.inr h)⟩
  intro i
  rw [hinv.2.2.2.1 i]
  constructor
  · rintro (h | h)
    · rcases hfin i with h2 | h2 <;> rw [h] at h2 <;> cases h2
    · exact h
  · exact Or.inr

/-- The barrier in the executions in which no call of `Map` panics: once the
collection loop has ended, and so whenever `reduce` has been called, every
worker has sent its result and run `wg.Done()`, and the received lists are those
of the three workers, each once. -/
theorem barrier_without_panic (panics : WorkerId → Bool) (hpanics : ∀ i, panics i = false)
    (schedule : List Event) (s : MainState)
    (hrun : run panics MainState.initial schedule = some s) (hmain : s.main ≠ .collecting) :
    (∀ i, s.phase i = .done) ∧ s.counter = 0 ∧ s.closer = .closed ∧
    s.received.Perm [.w0, .w1, .w2] ∧ (s.received.map WorkerId.worker).Perm workers := by
  obtain ⟨hfin, hzero, hclosed, hrecv, hnodup, habort⟩ :=
    loop_ends_after_every_Done panics schedule s hrun hmain
  have hdone : ∀ i, s.phase i = .done := by
    intro i
    rcases hfin i with h | h
    · exact h
    · have := habort i h
      rw [hpanics i] at this
      cases this
  have hperm : s.received.Perm [.w0, .w1, .w2] := by
    rw [List.perm_ext_iff_of_nodup hnodup (by decide)]
    intro i
    rw [hrecv i]
    cases i <;> simp [hdone]
  exact ⟨hdone, hzero, hclosed, hperm, hperm.map WorkerId.worker⟩

/-- The barrier without a panic, at an example: `exampleSchedule` on files that
are all well formed. -/
theorem barrier_without_panic_example :
    (∀ i, mapPanicsOf uniformFiles "data" 1000 i = false) ∧
    run (mapPanicsOf uniformFiles "data" 1000) MainState.initial exampleSchedule =
      some exampleFinal ∧
    exampleFinal.received.Perm [.w0, .w1, .w2] :=
  ⟨by intro i; cases i <;> decide, by decide,
    (barrier_without_panic (mapPanicsOf uniformFiles "data" 1000)
      (by intro i; cases i <;> decide) exampleSchedule exampleFinal (by decide)
      (by decide)).2.2.2.1⟩

/-! ## The goroutines of `main`: a panic in a worker -/

/-- C16, at the failing input: in `lostRecordFiles` the call of `Map` in worker 0
panics on the two-field row of `data/cities2.csv`.  In the execution
`panicSchedule` workers 1 and 2 send and finish, the deferred `wg.Done()` of
worker 0 runs while its panic unwinds and brings the counter to zero, the
channel is closed, the loop ends and `reduce` is called although worker 0 has
sent nothing; only then can the run time terminate the program.  So it is not
the case that in every execution all three workers have sent before `reduce` is
called. -/
theorem barrier_broken_by_panic :
    Map lostRecordFiles worker0 "data" 1000 = none ∧
    mapPanicsOf lostRecordFiles "data" 1000 .w0 = true ∧
    run (mapPanicsOf lostRecordFiles "data" 1000) MainState.initial panicSchedule =
      some panicFinal ∧
    panicFinal.main = .reduced ∧
    panicFinal.phase .w0 = .aborted ∧
    panicFinal.received = [.w1, .w2] ∧
    WorkerId.w0 ∉ panicFinal.received ∧
    step (mapPanicsOf lostRecordFiles "data" 1000) panicFinal .programExits =
      some { panicFinal with crashed := true } ∧
    ¬ (∀ (schedule : List Event) (s : MainState),
      run (mapPanicsOf lostRecordFiles "data" 1000) MainState.initial schedule = some s →
      s.main ≠ .collecting → ∀ i, i ∈ s.received ∧ s.phase i = .done) := by
  refine ⟨by decide, by decide, by decide, by decide, by decide, by decide, by decide,
    by decide, ?_⟩
  intro h
  have hw0 := (h panicSchedule panicFinal (by decide) (by decide) .w0).1
  exact absurd hw0 (by decide)

/-- C1, at the failing input: in `lostRecordFiles` worker 0 reads the record
`(CA, LA, 5000)` from `data/cities1.csv` and then panics on the two-field row of
`data/cities2.csv`.  In the execution `panicSchedule` the list `reduce` is
called on holds the seven records of workers 1 and 2 only: the record of
`data/cities1.csv`, whose population is above the threshold 1000, is not in it,
and the list is not a permutation of the records with such a population of the
successfully read files.  No list collects the results of all three workers. -/
theorem combined_list_partial_after_panic :
    readCSV lostRecordFiles ("data" ++ "/" ++ "cities1.csv") =
      .ok [{ State := "CA", City := "LA", Population := 5000 }] ∧
    readCSV lostRecordFiles ("data" ++ "/" ++ "cities2.csv") = .panic ∧
    run (mapPanicsOf lostRecordFiles "data" 1000) MainState.initial panicSchedule =
      some panicFinal ∧
    panicFinal.main = .reduced ∧
    handedToReduce lostRecordFiles "data" 1000 panicFinal =
      some (List.replicate 7 { State := "NY", City := "NYC", Population := 9000 }) ∧
    ({ State := "CA", City := "LA", Population := 5000 } : Population) ∈
      (allFiles.flatMap (recordsOf lostRecordFiles "data")).filter
        (fun pop => decide (pop.Population ≥ 1000)) ∧
    ({ State := "CA", City := "LA", Population := 5000 } : Population) ∉
      List.replicate 7 ({ State := "NY", City := "NYC", Population := 9000 } : Population) ∧
    ¬ (List.replicate 7 ({ State := "NY", City := "NYC", Population := 9000 } : Population)).Perm
      ((allFiles.flatMap (recordsOf lostRecordFiles "data")).filter
        (fun pop => decide (pop.Population ≥ 1000))) ∧
    mainCombined lostRecordFiles "data" 1000 workers = none := by
  refine ⟨by decide, by decide, by decide, by decide, by decide, by decide, by decide,
    ?_, by decide⟩
  intro hperm
  have hlen := hperm.length_eq
  revert hlen
  decide

end PopGo
